import Mathlib

/-!
Verification of the resumable migration engine in `migrate_blogs.py`.

The development shallowly embeds the program's data model and operations:

* `MigrationStats`, `ProgressData` and the `mark_*` / `update_index` /
  `set_file_list_hash` operations embed the `MigrationProgress` class
  (the Progress Ledger).
* `CacheFile`, `LedgerDisk`, `MigrationProgress.save_effect` and
  `MigrationProgress.load` embed the atomic save (write temp file, then
  replace) and the load-with-fallback of the ledger file, with crash
  points made explicit.
* `FileEntry`, `MigratorEnv`, `RunState`, `migrate_single_file`,
  `migrate_loop` and `migrate_all` embed the `BlogMigrator` engine
  (`migrate_single_file` / `migrate_all`).  External collaborators are
  explicit parameters: `keyOf` stands for `hashlib.md5` over the relative
  path (`generate_file_key`), `hashOf` for the file-list hash
  (`compute_file_list_hash`), `ins` for the Supabase insert outcome of the
  n-th insert call, `storeIds` for the rows returned by the paged listing
  in `fetch_existing_ids`.  The state is instrumented with counters for
  read calls, insert calls and processed files, and with the list of
  quarantined files (`copy_failed_file`).
* `FSPath`, `should_process_file` and `find_all_text_files` embed the
  File Selector; the `rglob` enumeration is the input list, and `Path`
  ordering is modelled as `pathlib` defines it: lexicographic comparison
  of the (case-normalized) tuples of path parts.
* `encodeChar`, `encodeSE`, `utf8Parse`, `failLen`, `decodeSE`,
  `decodeReplace`, `universalNewlines` and `sanitize_string` embed the
  codec pipeline used by `read_file_content` and `sanitize_string`:
  UTF-8 decoding with the `surrogateescape` error handler, the
  universal-newline translation text-mode `open` performs after
  decoding, UTF-8 encoding with `surrogateescape`, and UTF-8 decoding
  with the `replace` handler (one replacement character per maximal
  valid subpart, as CPython does).  Python strings are sequences of
  code points, modelled as `List Nat`.
-/

/-! ## Progress Ledger: in-memory state (`MigrationProgress.data`) -/

/-- The `stats` sub-dictionary of the progress data. -/
structure MigrationStats where
  total_files : Nat
  migrated : Nat
  skipped : Nat
  errors : Nat
deriving DecidableEq, Repr

/-- The `self.data` dictionary of `MigrationProgress`.  The Python sets
`migrated_ids` and `skipped` are lists without duplicates (elements are
only added after a membership test); `failed` is a dictionary from file
reference to last error text. -/
structure ProgressData where
  migrated_ids : List String
  failed : List (String × String)
  skipped : List String
  last_file_index : Nat
  total_files : Nat
  stats : MigrationStats
  file_list_hash : Option String
  last_updated : Option String
deriving DecidableEq, Repr

/-- The fresh default state built in `MigrationProgress.__init__` (and
`reset`). -/
def initialData : ProgressData :=
  { migrated_ids := []
    failed := []
    skipped := []
    last_file_index := 0
    total_files := 0
    stats := { total_files := 0, migrated := 0, skipped := 0, errors := 0 }
    file_list_hash := none
    last_updated := none }

/-- Python dictionary assignment `m[k] = v`: overwrite in place if the key
is present, append otherwise. -/
def dictSet (m : List (String × String)) (k v : String) : List (String × String) :=
  match m with
  | [] => [(k, v)]
  | (k', v') :: rest => if k' = k then (k, v) :: rest else (k', v') :: dictSet rest k v

/-- Python dictionary lookup `m[k]`. -/
def dictGet (m : List (String × String)) (k : String) : Option String :=
  match m with
  | [] => none
  | (k', v') :: rest => if k' = k then some v' else dictGet rest k

/-- `MigrationProgress.is_migrated`. -/
def is_migrated (p : ProgressData) (file_id : String) : Bool :=
  p.migrated_ids.contains file_id

/-- `MigrationProgress.mark_migrated`. -/
def mark_migrated (p : ProgressData) (file_id : String) : ProgressData :=
  if p.migrated_ids.contains file_id then p
  else
    { p with
      migrated_ids := p.migrated_ids ++ [file_id]
      stats := { p.stats with migrated := p.stats.migrated + 1 } }

/-- `MigrationProgress.mark_skipped`. -/
def mark_skipped (p : ProgressData) (file_id : String) : ProgressData :=
  if p.skipped.contains file_id then p
  else
    { p with
      skipped := p.skipped ++ [file_id]
      stats := { p.stats with skipped := p.stats.skipped + 1 } }

/-- `MigrationProgress.mark_failed`: unconditional dictionary overwrite and
unconditional error-counter increment. -/
def mark_failed (p : ProgressData) (file_id error : String) : ProgressData :=
  { p with
    failed := dictSet p.failed file_id error
    stats := { p.stats with errors := p.stats.errors + 1 } }

/-- `MigrationProgress.update_index`. -/
def update_index (p : ProgressData) (index : Nat) : ProgressData :=
  { p with last_file_index := index }

/-- `MigrationProgress.set_file_list_hash`. -/
def set_file_list_hash (p : ProgressData) (hash_value : String) : ProgressData :=
  { p with file_list_hash := some hash_value }

/-! ## Progress Ledger: on-disk model for `save` and `load` -/

/-- Contents of one on-disk file position: absent, present but not
parseable as a valid ledger document, or a valid document. -/
inductive CacheFile where
  | absent
  | corrupt
  | valid (d : ProgressData)
deriving DecidableEq, Repr

/-- The two file positions touched by `MigrationProgress.save`: the
canonical cache file and the `.tmp` file. -/
structure LedgerDisk where
  canonical : CacheFile
  temp : CacheFile
deriving DecidableEq, Repr

/-- Where execution of `MigrationProgress.save` stops: a crash while the
temp file is being written (temp left incomplete), a crash after the temp
write but before `temp_file.replace(...)`, or normal completion of the
replace step. -/
inductive SaveOutcome where
  | crashDuringTempWrite
  | crashBeforeReplace
  | completes
deriving DecidableEq, Repr

/-- The document serialized by `MigrationProgress.save`: the current data
with `last_updated` refreshed before writing. -/
def save_written (d : ProgressData) (now : String) : ProgressData :=
  { d with last_updated := some now }

/-- Effect of `MigrationProgress.save` on the disk, by stopping point.
Only the completing run performs `temp_file.replace(self.cache_file)`. -/
def save_effect (d : ProgressData) (now : String) (disk : LedgerDisk) :
    SaveOutcome → LedgerDisk
  | .crashDuringTempWrite => { disk with temp := .corrupt }
  | .crashBeforeReplace => { disk with temp := .valid (save_written d now) }
  | .completes => { canonical := .valid (save_written d now), temp := .absent }

/-- `MigrationProgress.load`: if the cache file exists and parses, replace
the in-memory data with it; if the file is absent, or `json.load` (or the
read) raises, keep the current data (after printing a warning). -/
def MigrationProgress.load (current : ProgressData) : CacheFile → ProgressData
  | .absent => current
  | .corrupt => current
  | .valid d => d

/-- `MigrationProgress.__init__`: start from the defaults, then `load`. -/
def MigrationProgress.build (file : CacheFile) : ProgressData :=
  MigrationProgress.load initialData file

/-! ## Migration Engine -/

/-- `self.max_consecutive_failures` (fixed to 10 in `BlogMigrator.__init__`). -/
def max_consecutive_failures : Nat := 10

/-- Outcome of one `supabase.table('blogs').insert(blog).execute()` call:
a result carrying data, a result with no data, or a raised exception. -/
inductive InsertOutcome where
  | ok
  | noData
  | exn (msg : String)
deriving DecidableEq, Repr

/-- One candidate file as the engine sees it: its full path string, its
path relative to the repository root, and the result of
`read_file_content` on it (`none` models an unreadable file, for which
every decoding attempt raises). -/
structure FileEntry where
  pathStr : String
  rel : String
  readData : Option (List Nat)
deriving DecidableEq, Repr

/-- External collaborators of `BlogMigrator`, passed explicitly:
`keyOf` is `generate_file_key` (md5 of the relative path), `hashOf` is
the md5 used by `compute_file_list_hash`, `ins n` is the outcome of the
n-th insert call of the run, `storeIds` are the ids accumulated by the
paged listing of `fetch_existing_ids`. -/
structure MigratorEnv where
  keyOf : String → String
  hashOf : String → String
  ins : Nat → InsertOutcome
  storeIds : List Nat
  smart_mode : Bool
  batch_size : Nat

/-- Run state: the ledger, the migrator's mutable fields, the last ledger
document persisted to disk during this run, and instrumentation (counts
of file reads, insert calls and processed files, and the relative paths
handed to `copy_failed_file`). -/
structure RunState where
  progress : ProgressData
  consecutive_failures : Nat
  existing_ids : List Nat
  insertCalls : Nat
  readCalls : Nat
  processed : Nat
  quarantined : List String
  disk : Option ProgressData
deriving DecidableEq, Repr

/-- `progress.save()` as invoked by the engine (the written document). -/
def saveLedger (st : RunState) : RunState :=
  { st with disk := some st.progress }

/-- `BlogMigrator.migrate_single_file`.  Branches exactly as the source:
already-migrated key returns `True` untouched; unreadable content marks
failure under the relative path and quarantines, without touching the
consecutive-failure counter; an insert with data marks migrated and
resets the counter; an insert without data marks failure under the file
key; a raised insert exception marks failure under the relative path;
both failure branches quarantine and increment the counter. -/
def migrate_single_file (env : MigratorEnv) (f : FileEntry) (st : RunState) :
    Bool × RunState :=
  let file_key := env.keyOf f.rel
  if is_migrated st.progress file_key then
    (true, st)
  else
    match f.readData with
    | none =>
      let st1 := { st with readCalls := st.readCalls + 1 }
      (false,
        { st1 with
          progress := mark_failed st1.progress f.rel "Could not read file content"
          quarantined := st1.quarantined ++ [f.rel] })
    | some _content =>
      let st1 := { st with readCalls := st.readCalls + 1 }
      let outcome := env.ins st1.insertCalls
      let st2 := { st1 with insertCalls := st1.insertCalls + 1 }
      match outcome with
      | .ok =>
        (true,
          { st2 with
            progress := mark_migrated st2.progress file_key
            consecutive_failures := 0 })
      | .noData =>
        (false,
          { st2 with
            progress := mark_failed st2.progress file_key "Insert returned no data"
            quarantined := st2.quarantined ++ [f.rel]
            consecutive_failures := st2.consecutive_failures + 1 })
      | .exn msg =>
        (false,
          { st2 with
            progress := mark_failed st2.progress f.rel msg
            quarantined := st2.quarantined ++ [f.rel]
            consecutive_failures := st2.consecutive_failures + 1 })

/-- Per-iteration checkpoint of `migrate_all`: save the ledger when the
batch is full or the last file (index `n - 1`) was just processed. -/
def batch_checkpoint (n start_index bsize i : Nat) (st : RunState) : RunState :=
  if (i - start_index) % bsize + 1 = bsize ∨ i = n - 1 then saveLedger st else st

/-- How a run ends: the loop finishes the file list, or the
consecutive-failure threshold is reached and `SystemExit(1)` is raised
after a final `progress.save()`. -/
inductive RunOutcome where
  | completed
  | haltedSystemic
deriving DecidableEq, Repr

/-- The `for i in range(start_index, len(all_files))` loop of
`migrate_all`: process the file, halt with a save if the
consecutive-failure threshold is reached, otherwise advance the cursor,
checkpoint at batch boundaries, and continue. -/
def migrate_loop (env : MigratorEnv) (n start_index : Nat) :
    List FileEntry → Nat → RunState → RunState × RunOutcome
  | [], _, st => (st, .completed)
  | f :: rest, i, st =>
    let st0 := { st with processed := st.processed + 1 }
    let st1 := (migrate_single_file env f st0).2
    if max_consecutive_failures ≤ st1.consecutive_failures then
      (saveLedger st1, .haltedSystemic)
    else
      let st2 := { st1 with progress := update_index st1.progress (i + 1) }
      migrate_loop env n start_index rest (i + 1)
        (batch_checkpoint n start_index env.batch_size i st2)

/-- `BlogMigrator.fetch_existing_ids`: in smart mode, accumulate the ids
returned by the paged listing into `existing_ids`; otherwise return
immediately.  (The fetched set is stored and never read back by the
engine.) -/
def fetch_existing_ids (env : MigratorEnv) (st : RunState) : RunState :=
  if env.smart_mode then { st with existing_ids := st.existing_ids ++ env.storeIds } else st

/-- `'\n'.join(str(f) for f in files)` as hashed by
`compute_file_list_hash`. -/
def joinedPaths (files : List FileEntry) : String :=
  String.intercalate "\n" (files.map FileEntry.pathStr)

/-- The ledger updates `migrate_all` performs before the loop: record the
current file-list hash and the totals. -/
def prepare_progress (env : MigratorEnv) (files : List FileEntry) (p0 : ProgressData) :
    ProgressData :=
  let p1 := set_file_list_hash p0 (env.hashOf (joinedPaths files))
  { p1 with
    total_files := files.length
    stats := { p1.stats with total_files := files.length } }

/-- The run state at the start of a run: the prepared ledger and a fresh
`BlogMigrator` (its mutable fields are initialized in `__init__`). -/
def initial_run_state (p : ProgressData) : RunState :=
  { progress := p
    consecutive_failures := 0
    existing_ids := []
    insertCalls := 0
    readCalls := 0
    processed := 0
    quarantined := []
    disk := none }

/-- `BlogMigrator.migrate_all` (processing part): record the file-list
hash and totals in the ledger, fetch existing ids in smart mode, resume
from the stored cursor, run the loop, and on normal completion perform
the final `progress.save()`.  On the systemic halt `SystemExit` escapes
before the final save (the halt branch saved already). -/
def migrate_all (env : MigratorEnv) (files : List FileEntry) (p0 : ProgressData) :
    RunState × RunOutcome :=
  let p2 := prepare_progress env files p0
  let st1 := fetch_existing_ids env (initial_run_state p2)
  let start_index := p2.last_file_index
  let res := migrate_loop env files.length start_index (files.drop start_index) start_index st1
  match res.2 with
  | .completed => (saveLedger res.1, .completed)
  | .haltedSystemic => (res.1, .haltedSystemic)

/-! ## File Selector -/

/-- `BlogMigrator.TEXT_EXTENSIONS`. -/
def TEXT_EXTENSIONS : List String := [".txt"]

/-- `BlogMigrator.EXCLUDE_DIRS`. -/
def EXCLUDE_DIRS : List String :=
  [".git", ".venv", "node_modules", "__pycache__",
   "venv", "env", "build", "dist", ".idea",
   ".gradle", "android/build", "android/.gradle",
   "migration_errors"]

/-- One path yielded by `repo_root.rglob('*')`: its string form, the
tuple of its path parts (`Path.parts`), the parts of its path relative
to the root, its lowercased suffix, whether it is a regular file, and
whether `relative_to(repo_root)` succeeds. -/
structure FSPath where
  pathStr : String
  parts : List String
  relParts : List String
  suffixLower : String
  isRegularFile : Bool
  underRoot : Bool
deriving DecidableEq, Repr

/-- `BlogMigrator.should_process_file`: under the root, no relative part
in the exclusion set, suffix in the inclusion set, and a regular file. -/
def should_process_file (p : FSPath) : Bool :=
  p.underRoot
    && !(p.relParts.any (fun d => EXCLUDE_DIRS.contains d))
    && TEXT_EXTENSIONS.contains p.suffixLower
    && p.isRegularFile

/-- The comparison used by `text_files.sort()`: `pathlib` orders `Path`
objects by lexicographic comparison of their case-normalized tuples of
path parts (case normalization is the identity on the POSIX paths
modelled here), not by comparison of the raw path strings. -/
def pathLe (a b : FSPath) : Bool := decide (a.parts ≤ b.parts)

/-- `BlogMigrator.find_all_text_files`: filter the enumeration through
`should_process_file`, then sort. -/
def find_all_text_files (enumeration : List FSPath) : List FSPath :=
  (enumeration.filter should_process_file).mergeSort pathLe

/-! ## Content Reader and sanitization codec -/

/-- Lower bound for the second byte of a three-byte sequence headed by
`b` (UTF-8 excludes overlong encodings and surrogate scalars). -/
def cont3lo (b : Nat) : Nat := if b = 0xE0 then 0xA0 else 0x80

/-- Upper bound for the second byte of a three-byte sequence headed by
`b`. -/
def cont3hi (b : Nat) : Nat := if b = 0xED then 0x9F else 0xBF

/-- Lower bound for the second byte of a four-byte sequence headed by
`b`. -/
def cont4lo (b : Nat) : Nat := if b = 0xF0 then 0x90 else 0x80

/-- Upper bound for the second byte of a four-byte sequence headed by
`b`. -/
def cont4hi (b : Nat) : Nat := if b = 0xF4 then 0x8F else 0xBF

/-- Attempt to parse one complete valid UTF-8 sequence starting at byte
`b` with the following bytes `rest`; returns the decoded scalar value
and the number of continuation bytes consumed. -/
def utf8Parse (b : Nat) (rest : List Nat) : Option (Nat × Nat) :=
  if b < 0x80 then some (b, 0)
  else if 0xC2 ≤ b ∧ b ≤ 0xDF then
    match rest with
    | b1 :: _ =>
      if 0x80 ≤ b1 ∧ b1 ≤ 0xBF then some ((b - 0xC0) * 0x40 + (b1 - 0x80), 1) else none
    | [] => none
  else if 0xE0 ≤ b ∧ b ≤ 0xEF then
    match rest with
    | b1 :: b2 :: _ =>
      if (cont3lo b ≤ b1 ∧ b1 ≤ cont3hi b) ∧ (0x80 ≤ b2 ∧ b2 ≤ 0xBF) then
        some ((b - 0xE0) * 0x1000 + (b1 - 0x80) * 0x40 + (b2 - 0x80), 2)
      else none
    | _ => none
  else if 0xF0 ≤ b ∧ b ≤ 0xF4 then
    match rest with
    | b1 :: b2 :: b3 :: _ =>
      if (cont4lo b ≤ b1 ∧ b1 ≤ cont4hi b) ∧ (0x80 ≤ b2 ∧ b2 ≤ 0xBF) ∧ (0x80 ≤ b3 ∧ b3 ≤ 0xBF) then
        some ((b - 0xF0) * 0x40000 + (b1 - 0x80) * 0x1000 + (b2 - 0x80) * 0x40 + (b3 - 0x80), 3)
      else none
    | _ => none
  else none

/-- Length, beyond the first byte, of the maximal valid prefix of a
sequence starting at `b` when the full parse fails (the maximal-subpart
rule of the `replace` error handler). -/
def failLen (b : Nat) (rest : List Nat) : Nat :=
  if 0xE0 ≤ b ∧ b ≤ 0xEF then
    match rest with
    | b1 :: _ => if cont3lo b ≤ b1 ∧ b1 ≤ cont3hi b then 1 else 0
    | [] => 0
  else if 0xF0 ≤ b ∧ b ≤ 0xF4 then
    match rest with
    | b1 :: b2 :: _ =>
      if cont4lo b ≤ b1 ∧ b1 ≤ cont4hi b then
        (if 0x80 ≤ b2 ∧ b2 ≤ 0xBF then 2 else 1)
      else 0
    | [b1] => if cont4lo b ≤ b1 ∧ b1 ≤ cont4hi b then 1 else 0
    | [] => 0
  else 0

/-- `bytes.decode('utf-8', errors='surrogateescape')`: valid sequences
decode normally; every byte not part of a valid sequence becomes the
lone surrogate `0xDC00 + byte`. -/
def decodeSE : List Nat → List Nat
  | [] => []
  | b :: rest =>
    match utf8Parse b rest with
    | some (cp, k) => cp :: decodeSE (rest.drop k)
    | none => (0xDC00 + b) :: decodeSE rest
termination_by l => l.length
decreasing_by
  · simp [List.length_drop]; omega
  · simp

/-- `bytes.decode('utf-8', errors='replace')`: valid sequences decode
normally; each maximal invalid subpart becomes one `U+FFFD`. -/
def decodeReplace : List Nat → List Nat
  | [] => []
  | b :: rest =>
    match utf8Parse b rest with
    | some (cp, k) => cp :: decodeReplace (rest.drop k)
    | none => 0xFFFD :: decodeReplace (rest.drop (failLen b rest))
termination_by l => l.length
decreasing_by
  · simp [List.length_drop]; omega
  · simp [List.length_drop]; omega

/-- UTF-8 encoding of one scalar value. -/
def encodeChar (c : Nat) : List Nat :=
  if c < 0x80 then [c]
  else if c < 0x800 then [0xC0 + c / 0x40, 0x80 + c % 0x40]
  else if c < 0x10000 then [0xE0 + c / 0x1000, 0x80 + c / 0x40 % 0x40, 0x80 + c % 0x40]
  else [0xF0 + c / 0x40000, 0x80 + c / 0x1000 % 0x40, 0x80 + c / 0x40 % 0x40, 0x80 + c % 0x40]

/-- `s.encode('utf-8', errors='surrogateescape')`: surrogates in
`0xDC80..0xDCFF` are turned back into single bytes `0x80..0xFF`; any
other surrogate makes the handler re-raise (`none`); ordinary scalars
encode as UTF-8. -/
def encodeSE : List Nat → Option (List Nat)
  | [] => some []
  | c :: s =>
    if 0xDC80 ≤ c ∧ c ≤ 0xDCFF then (encodeSE s).map (fun bs => (c - 0xDC00) :: bs)
    else if 0xD800 ≤ c ∧ c ≤ 0xDFFF then none
    else (encodeSE s).map (fun bs => encodeChar c ++ bs)

/-- `BlogMigrator.sanitize_string`: encode with `surrogateescape`, decode
with `replace`.  `none` models the `UnicodeEncodeError` raised when the
string holds a surrogate outside `0xDC80..0xDCFF`. -/
def sanitize_string (s : List Nat) : Option (List Nat) :=
  (encodeSE s).map decodeReplace

/-- `bytes.decode('latin-1')` (total: byte value = code point). -/
def latin1Decode (bytes : List Nat) : List Nat := bytes

/-- The universal-newline translation text-mode `open(..., 'r')`
performs after decoding: `\r\n` and lone `\r` both become `\n`. -/
def universalNewlines : List Nat → List Nat
  | [] => []
  | c :: rest =>
    if c = 0x0D then
      0x0A :: universalNewlines (if rest.head? = some 0x0A then rest.tail else rest)
    else c :: universalNewlines rest
termination_by l => l.length
decreasing_by
  · split <;> simp [List.length_tail] <;> omega
  · simp

/-- `BlogMigrator.read_file_content` on the raw bytes of a readable
file: the text-mode UTF-8/surrogateescape read (decode, then universal
newline translation) followed by `sanitize_string`; if that raises,
fall back to text-mode `latin-1` followed by `sanitize_string`. -/
def read_file_content (bytes : List Nat) : Option (List Nat) :=
  match sanitize_string (universalNewlines (decodeSE bytes)) with
  | some s => some s
  | none => sanitize_string (universalNewlines (latin1Decode bytes))

/-- The code points of `s` that are not surrogates, in order. -/
def nonSurrFilter (s : List Nat) : List Nat :=
  s.filter (fun c => decide (c < 0xD800 ∨ 0xDFFF < c))

/-- A Unicode scalar value: a code point that is not a surrogate. -/
abbrev IsScalar (c : Nat) : Prop := c < 0x110000 ∧ ¬ (0xD800 ≤ c ∧ c ≤ 0xDFFF)

/-- The byte string `encodeSE` produces when it does not raise: each
escape surrogate contributes its original byte, every other code point
its UTF-8 encoding. -/
def encBytes : List Nat → List Nat
  | [] => []
  | c :: s =>
    (if 0xDC80 ≤ c ∧ c ≤ 0xDCFF then [c - 0xDC00] else encodeChar c) ++ encBytes s

/-! ## Concrete inputs used by witnesses and counterexamples -/

/-- A concrete environment: identity in place of the md5 digests, a
store whose inserts always succeed and whose listing is empty. -/
def exEnv : MigratorEnv :=
  { keyOf := fun r => r
    hashOf := fun s => s
    ins := fun _ => .ok
    storeIds := []
    smart_mode := true
    batch_size := 50 }

/-- The environment of a run in which every insert raises. -/
def exEnvFail : MigratorEnv := { exEnv with ins := fun _ => .exn "connection refused" }

/-- A smart-mode environment whose Remote Store listing already contains
one row. -/
def exEnvSmart : MigratorEnv := { exEnv with storeIds := [1] }

/-- The run state at the start of `migrate_all` over a fresh ledger. -/
def exState : RunState :=
  { progress := initialData
    consecutive_failures := 0
    existing_ids := []
    insertCalls := 0
    readCalls := 0
    processed := 0
    quarantined := []
    disk := none }

/-- Ten readable candidate files. -/
def filesTen : List FileEntry :=
  (List.range 10).map fun j =>
    { pathStr := "/repo/f" ++ toString j ++ ".txt"
      rel := "f" ++ toString j ++ ".txt"
      readData := some [0x68, 0x69] }

/-- Eleven candidate files, the first of which is unreadable. -/
def filesElevenOneBad : List FileEntry :=
  { pathStr := "/repo/bad.txt", rel := "bad.txt", readData := none } :: filesTen

/-- The candidate file `/r/a/b.txt`: its path string compares after
`/r/a.b/c.txt`, but its parts tuple compares before it. -/
def exPathA : FSPath :=
  { pathStr := "/r/a/b.txt"
    parts := ["/", "r", "a", "b.txt"]
    relParts := ["a", "b.txt"]
    suffixLower := ".txt"
    isRegularFile := true
    underRoot := true }

/-- The candidate file `/r/a.b/c.txt`. -/
def exPathB : FSPath :=
  { pathStr := "/r/a.b/c.txt"
    parts := ["/", "r", "a.b", "c.txt"]
    relParts := ["a.b", "c.txt"]
    suffixLower := ".txt"
    isRegularFile := true
    underRoot := true }

/-! ## Field lemmas for the ledger operations -/

@[simp]
theorem mark_failed_migrated_ids (p : ProgressData) (fid err : String) :
    (mark_failed p fid err).migrated_ids = p.migrated_ids := rfl

@[simp]
theorem mark_failed_skipped (p : ProgressData) (fid err : String) :
    (mark_failed p fid err).skipped = p.skipped := rfl

@[simp]
theorem mark_failed_stats_skipped (p : ProgressData) (fid err : String) :
    (mark_failed p fid err).stats.skipped = p.stats.skipped := rfl

@[simp]
theorem mark_failed_stats_migrated (p : ProgressData) (fid err : String) :
    (mark_failed p fid err).stats.migrated = p.stats.migrated := rfl

@[simp]
theorem mark_failed_stats_errors (p : ProgressData) (fid err : String) :
    (mark_failed p fid err).stats.errors = p.stats.errors + 1 := rfl

@[simp]
theorem mark_failed_last_file_index (p : ProgressData) (fid err : String) :
    (mark_failed p fid err).last_file_index = p.last_file_index := rfl

@[simp]
theorem mark_migrated_skipped (p : ProgressData) (fid : String) :
    (mark_migrated p fid).skipped = p.skipped := by
  unfold mark_migrated; split <;> rfl

@[simp]
theorem mark_migrated_stats_skipped (p : ProgressData) (fid : String) :
    (mark_migrated p fid).stats.skipped = p.stats.skipped := by
  unfold mark_migrated; split <;> rfl

@[simp]
theorem mark_migrated_stats_errors (p : ProgressData) (fid : String) :
    (mark_migrated p fid).stats.errors = p.stats.errors := by
  unfold mark_migrated; split <;> rfl

@[simp]
theorem mark_migrated_last_file_index (p : ProgressData) (fid : String) :
    (mark_migrated p fid).last_file_index = p.last_file_index := by
  unfold mark_migrated; split <;> rfl

@[simp]
theorem update_index_migrated_ids (p : ProgressData) (i : Nat) :
    (update_index p i).migrated_ids = p.migrated_ids := rfl

@[simp]
theorem update_index_skipped (p : ProgressData) (i : Nat) :
    (update_index p i).skipped = p.skipped := rfl

@[simp]
theorem update_index_stats (p : ProgressData) (i : Nat) :
    (update_index p i).stats = p.stats := rfl

@[simp]
theorem update_index_last_file_index (p : ProgressData) (i : Nat) :
    (update_index p i).last_file_index = i := rfl

@[simp]
theorem saveLedger_progress (st : RunState) : (saveLedger st).progress = st.progress := rfl

@[simp]
theorem saveLedger_disk (st : RunState) : (saveLedger st).disk = some st.progress := rfl

@[simp]
theorem batch_checkpoint_progress (n s b i : Nat) (st : RunState) :
    (batch_checkpoint n s b i st).progress = st.progress := by
  unfold batch_checkpoint; split <;> rfl

@[simp]
theorem batch_checkpoint_consecutive (n s b i : Nat) (st : RunState) :
    (batch_checkpoint n s b i st).consecutive_failures = st.consecutive_failures := by
  unfold batch_checkpoint; split <;> rfl

@[simp]
theorem batch_checkpoint_insertCalls (n s b i : Nat) (st : RunState) :
    (batch_checkpoint n s b i st).insertCalls = st.insertCalls := by
  unfold batch_checkpoint; split <;> rfl

@[simp]
theorem batch_checkpoint_readCalls (n s b i : Nat) (st : RunState) :
    (batch_checkpoint n s b i st).readCalls = st.readCalls := by
  unfold batch_checkpoint; split <;> rfl

@[simp]
theorem batch_checkpoint_processed (n s b i : Nat) (st : RunState) :
    (batch_checkpoint n s b i st).processed = st.processed := by
  unfold batch_checkpoint; split <;> rfl

theorem dictGet_dictSet (m : List (String × String)) (k v : String) :
    dictGet (dictSet m k v) k = some v := by
  induction m with
  | nil => simp [dictSet, dictGet]
  | cons hd tl ih =>
    obtain ⟨k', v'⟩ := hd
    by_cases h : k' = k
    · simp [dictSet, dictGet, h]
    · simp [dictSet, dictGet, h, ih]

/-! ## Claim theorems: Progress Ledger -/

/-- Claim C2: the save writes the full state to a temporary file and only
the completing run replaces the canonical file; a crash at any point
between the start of the temporary write and the replace step leaves any
previously valid canonical ledger file intact and loadable. -/
theorem claim_C2 (d prev : ProgressData) (now : String) (disk : LedgerDisk)
    (o : SaveOutcome) (hprev : disk.canonical = .valid prev) (ho : o ≠ .completes) :
    (save_effect d now disk o).canonical = .valid prev ∧
    MigrationProgress.build (save_effect d now disk o).canonical = prev := by
  cases o with
  | completes => exact absurd rfl ho
  | crashDuringTempWrite =>
    exact ⟨hprev, by simp [save_effect, hprev, MigrationProgress.build, MigrationProgress.load]⟩
  | crashBeforeReplace =>
    exact ⟨hprev, by simp [save_effect, hprev, MigrationProgress.build, MigrationProgress.load]⟩

/-- Witness for claim C2 at a concrete prior ledger and a crash between
the temporary write and the replace. -/
theorem claim_C2_witness :
    (save_effect initialData "2026-10-12"
        { canonical := .valid { initialData with total_files := 7 }, temp := .absent }
        .crashBeforeReplace).canonical = .valid { initialData with total_files := 7 } ∧
    MigrationProgress.build
        (save_effect initialData "2026-10-12"
          { canonical := .valid { initialData with total_files := 7 }, temp := .absent }
          .crashBeforeReplace).canonical = { initialData with total_files := 7 } :=
  claim_C2 initialData { initialData with total_files := 7 } "2026-10-12"
    { canonical := .valid { initialData with total_files := 7 }, temp := .absent }
    .crashBeforeReplace rfl (by decide)

/-- Claim C5: `mark_migrated` and `mark_skipped` are idempotent with
respect to statistics; marking a present identity changes nothing, and
marking a new identity adds it and increments the matching counter by
exactly one. -/
theorem claim_C5 (p : ProgressData) (fid : String) :
    (p.migrated_ids.contains fid = true → mark_migrated p fid = p) ∧
    (p.migrated_ids.contains fid = false →
      (mark_migrated p fid).migrated_ids = p.migrated_ids ++ [fid] ∧
      (mark_migrated p fid).stats.migrated = p.stats.migrated + 1) ∧
    (p.skipped.contains fid = true → mark_skipped p fid = p) ∧
    (p.skipped.contains fid = false →
      (mark_skipped p fid).skipped = p.skipped ++ [fid] ∧
      (mark_skipped p fid).stats.skipped = p.stats.skipped + 1) := by
  refine ⟨?_, ?_, ?_, ?_⟩ <;> intro h
  · unfold mark_migrated; rw [if_pos h]
  · unfold mark_migrated; rw [if_neg (by simpa using h)]; exact ⟨rfl, rfl⟩
  · unfold mark_skipped; rw [if_pos h]
  · unfold mark_skipped; rw [if_neg (by simpa using h)]; exact ⟨rfl, rfl⟩

/-- Witness for claim C5 on a concrete ledger holding identity `a` as
migrated and `s` as skipped. -/
theorem claim_C5_witness :
    mark_migrated { initialData with migrated_ids := ["a"], skipped := ["s"] } "a" =
      { initialData with migrated_ids := ["a"], skipped := ["s"] } ∧
    (mark_migrated { initialData with migrated_ids := ["a"], skipped := ["s"] } "b").stats.migrated =
      { initialData with migrated_ids := ["a"], skipped := ["s"] }.stats.migrated + 1 ∧
    mark_skipped { initialData with migrated_ids := ["a"], skipped := ["s"] } "s" =
      { initialData with migrated_ids := ["a"], skipped := ["s"] } ∧
    (mark_skipped { initialData with migrated_ids := ["a"], skipped := ["s"] } "t").stats.skipped =
      { initialData with migrated_ids := ["a"], skipped := ["s"] }.stats.skipped + 1 :=
  ⟨(claim_C5 { initialData with migrated_ids := ["a"], skipped := ["s"] } "a").1 (by decide),
   ((claim_C5 { initialData with migrated_ids := ["a"], skipped := ["s"] } "b").2.1 (by decide)).2,
   (claim_C5 { initialData with migrated_ids := ["a"], skipped := ["s"] } "s").2.2.1 (by decide),
   ((claim_C5 { initialData with migrated_ids := ["a"], skipped := ["s"] } "t").2.2.2 (by decide)).2⟩

/-- Claim C6: building the ledger reads the persisted state when the
cache file exists and parses; on a parse or read error (or an absent
file) it stays in the fresh empty default state, without raising. -/
theorem claim_C6 (d : ProgressData) :
    MigrationProgress.build .corrupt = initialData ∧
    MigrationProgress.build .absent = initialData ∧
    MigrationProgress.build (.valid d) = d ∧
    initialData.migrated_ids = [] ∧
    initialData.skipped = [] ∧
    initialData.failed = [] ∧
    initialData.last_file_index = 0 ∧
    initialData.stats = { total_files := 0, migrated := 0, skipped := 0, errors := 0 } := by
  refine ⟨rfl, rfl, rfl, rfl, rfl, rfl, rfl, rfl⟩

/-- Claim C10: `mark_failed` is not idempotent: every call increments the
errors counter by one, even when the reference is already present, and
the failed mapping keeps the last error text. -/
theorem claim_C10 (p : ProgressData) (fid err : String) :
    (mark_failed p fid err).stats.errors = p.stats.errors + 1 ∧
    dictGet (mark_failed p fid err).failed fid = some err ∧
    (mark_failed (mark_failed p fid err) fid err).stats.errors = p.stats.errors + 2 := by
  refine ⟨rfl, ?_, rfl⟩
  simpa [mark_failed] using dictGet_dictSet p.failed fid err

/-! ## Field lemmas for the engine -/

@[simp]
theorem initialData_migrated_ids : initialData.migrated_ids = [] := rfl

@[simp]
theorem initialData_last_file_index : initialData.last_file_index = 0 := rfl

@[simp]
theorem initialData_stats_errors : initialData.stats.errors = 0 := rfl

@[simp]
theorem prepare_progress_migrated_ids (env : MigratorEnv) (files : List FileEntry)
    (p0 : ProgressData) :
    (prepare_progress env files p0).migrated_ids = p0.migrated_ids := rfl

@[simp]
theorem prepare_progress_skipped (env : MigratorEnv) (files : List FileEntry)
    (p0 : ProgressData) :
    (prepare_progress env files p0).skipped = p0.skipped := rfl

@[simp]
theorem prepare_progress_stats_skipped (env : MigratorEnv) (files : List FileEntry)
    (p0 : ProgressData) :
    (prepare_progress env files p0).stats.skipped = p0.stats.skipped := rfl

@[simp]
theorem prepare_progress_stats_errors (env : MigratorEnv) (files : List FileEntry)
    (p0 : ProgressData) :
    (prepare_progress env files p0).stats.errors = p0.stats.errors := rfl

@[simp]
theorem prepare_progress_last_file_index (env : MigratorEnv) (files : List FileEntry)
    (p0 : ProgressData) :
    (prepare_progress env files p0).last_file_index = p0.last_file_index := rfl

@[simp]
theorem initial_run_state_progress (p : ProgressData) : (initial_run_state p).progress = p := rfl

@[simp]
theorem initial_run_state_consecutive (p : ProgressData) :
    (initial_run_state p).consecutive_failures = 0 := rfl

@[simp]
theorem initial_run_state_insertCalls (p : ProgressData) :
    (initial_run_state p).insertCalls = 0 := rfl

@[simp]
theorem initial_run_state_readCalls (p : ProgressData) :
    (initial_run_state p).readCalls = 0 := rfl

@[simp]
theorem initial_run_state_processed (p : ProgressData) :
    (initial_run_state p).processed = 0 := rfl

@[simp]
theorem fetch_existing_ids_progress (env : MigratorEnv) (st : RunState) :
    (fetch_existing_ids env st).progress = st.progress := by
  unfold fetch_existing_ids; split <;> rfl

@[simp]
theorem fetch_existing_ids_consecutive (env : MigratorEnv) (st : RunState) :
    (fetch_existing_ids env st).consecutive_failures = st.consecutive_failures := by
  unfold fetch_existing_ids; split <;> rfl

@[simp]
theorem fetch_existing_ids_insertCalls (env : MigratorEnv) (st : RunState) :
    (fetch_existing_ids env st).insertCalls = st.insertCalls := by
  unfold fetch_existing_ids; split <;> rfl

@[simp]
theorem fetch_existing_ids_readCalls (env : MigratorEnv) (st : RunState) :
    (fetch_existing_ids env st).readCalls = st.readCalls := by
  unfold fetch_existing_ids; split <;> rfl

@[simp]
theorem fetch_existing_ids_processed (env : MigratorEnv) (st : RunState) :
    (fetch_existing_ids env st).processed = st.processed := by
  unfold fetch_existing_ids; split <;> rfl

/-! ## Per-file step lemmas -/

theorem migrate_single_file_migrated (env : MigratorEnv) (f : FileEntry) (st : RunState)
    (h : is_migrated st.progress (env.keyOf f.rel) = true) :
    migrate_single_file env f st = (true, st) := by
  unfold migrate_single_file
  simp [h]

theorem migrate_single_file_read_fail (env : MigratorEnv) (f : FileEntry) (st : RunState)
    (hmig : is_migrated st.progress (env.keyOf f.rel) = false)
    (hread : f.readData = none) :
    migrate_single_file env f st =
      (false,
        { st with
          readCalls := st.readCalls + 1
          progress := mark_failed st.progress f.rel "Could not read file content"
          quarantined := st.quarantined ++ [f.rel] }) := by
  unfold migrate_single_file
  simp [hmig, hread]

theorem migrate_single_file_ins_fail (env : MigratorEnv) (f : FileEntry) (st : RunState)
    (hmig : is_migrated st.progress (env.keyOf f.rel) = false)
    (c : List Nat) (hread : f.readData = some c)
    (hins : env.ins st.insertCalls ≠ .ok) :
    (migrate_single_file env f st).2.consecutive_failures = st.consecutive_failures + 1 ∧
    (migrate_single_file env f st).2.progress.stats.errors = st.progress.stats.errors + 1 ∧
    (migrate_single_file env f st).2.progress.migrated_ids = st.progress.migrated_ids ∧
    (migrate_single_file env f st).2.processed = st.processed ∧
    (migrate_single_file env f st).2.disk = st.disk := by
  unfold migrate_single_file
  cases ho : env.ins st.insertCalls with
  | ok => exact absurd ho hins
  | noData => simp [hmig, hread, ho]
  | exn m => simp [hmig, hread, ho]

theorem migrate_single_file_inv (env : MigratorEnv) (f : FileEntry) (st : RunState) :
    (migrate_single_file env f st).2.progress.skipped = st.progress.skipped ∧
    (migrate_single_file env f st).2.progress.stats.skipped = st.progress.stats.skipped ∧
    (migrate_single_file env f st).2.processed = st.processed ∧
    (migrate_single_file env f st).2.disk = st.disk := by
  unfold migrate_single_file
  by_cases hm : is_migrated st.progress (env.keyOf f.rel) = true
  · simp [hm]
  · rw [Bool.not_eq_true] at hm
    cases hr : f.readData with
    | none => simp [hm, hr]
    | some c =>
      cases ho : env.ins st.insertCalls with
      | ok => simp [hm, hr, ho]
      | noData => simp [hm, hr, ho]
      | exn m => simp [hm, hr, ho]

theorem migrate_single_file_ok_consec (env : MigratorEnv) (f : FileEntry) (st : RunState)
    (hok : ∀ k, env.ins k = .ok) (hc : st.consecutive_failures = 0) :
    (migrate_single_file env f st).2.consecutive_failures = 0 := by
  unfold migrate_single_file
  by_cases hm : is_migrated st.progress (env.keyOf f.rel) = true
  · simp [hm, hc]
  · rw [Bool.not_eq_true] at hm
    cases hr : f.readData with
    | none => simp [hm, hr, hc]
    | some c => simp [hm, hr, hok]

/-! ## Loop lemmas -/

theorem migrate_loop_skipped_inv (env : MigratorEnv) (n s : Nat) :
    ∀ (files : List FileEntry) (i : Nat) (st : RunState),
    (migrate_loop env n s files i st).1.progress.skipped = st.progress.skipped ∧
    (migrate_loop env n s files i st).1.progress.stats.skipped = st.progress.stats.skipped := by
  intro files
  induction files with
  | nil => intro i st; simp [migrate_loop]
  | cons f rest ih =>
    intro i st
    have hinv := migrate_single_file_inv env f { st with processed := st.processed + 1 }
    simp only [migrate_loop]
    split
    · exact ⟨hinv.1, hinv.2.1⟩
    · simp [ih, hinv.1, hinv.2.1]

theorem migrate_loop_ok_completes (env : MigratorEnv) (hok : ∀ k, env.ins k = .ok) (n s : Nat) :
    ∀ (files : List FileEntry) (i : Nat) (st : RunState),
    st.consecutive_failures = 0 →
    (migrate_loop env n s files i st).2 = .completed := by
  intro files
  induction files with
  | nil => intro i st _; simp [migrate_loop]
  | cons f rest ih =>
    intro i st hc
    have hc1 : (migrate_single_file env f { st with processed := st.processed + 1 }).2.consecutive_failures = 0 :=
      migrate_single_file_ok_consec env f _ hok hc
    simp only [migrate_loop]
    rw [if_neg (by rw [hc1]; decide)]
    exact ih (i + 1) _ (by simp [hc1])

theorem migrate_loop_completed_index (env : MigratorEnv) (n s : Nat) :
    ∀ (files : List FileEntry) (i : Nat) (st : RunState),
    (migrate_loop env n s files i st).2 = .completed →
    (migrate_loop env n s files i st).1.progress.last_file_index =
      (if files = [] then st.progress.last_file_index else i + files.length) := by
  intro files
  induction files with
  | nil => intro i st _; simp [migrate_loop]
  | cons f rest ih =>
    intro i st h
    simp only [migrate_loop] at h ⊢
    by_cases hhalt : max_consecutive_failures ≤
        (migrate_single_file env f { st with processed := st.processed + 1 }).2.consecutive_failures
    · rw [if_pos hhalt] at h
      simp at h
    · rw [if_neg hhalt] at h ⊢
      rw [ih _ _ h]
      by_cases hrest : rest = []
      · simp [hrest]
      · simp only [if_neg hrest, List.length_cons,
          if_neg (by simp : ¬ (f :: rest = []))]
        omega

theorem migrate_loop_allFail (env : MigratorEnv) (hins : ∀ k, env.ins k ≠ .ok) (n s : Nat) :
    ∀ (files : List FileEntry) (i : Nat) (st : RunState),
    (∀ f ∈ files, f.readData ≠ none) →
    (∀ f ∈ files, is_migrated st.progress (env.keyOf f.rel) = false) →
    st.consecutive_failures < max_consecutive_failures →
    (migrate_loop env n s files i st).1.processed =
      st.processed + min files.length (max_consecutive_failures - st.consecutive_failures) ∧
    (migrate_loop env n s files i st).1.progress.stats.errors =
      st.progress.stats.errors + min files.length (max_consecutive_failures - st.consecutive_failures) ∧
    (max_consecutive_failures - st.consecutive_failures ≤ files.length →
      (migrate_loop env n s files i st).2 = .haltedSystemic ∧
      (migrate_loop env n s files i st).1.disk =
        some (migrate_loop env n s files i st).1.progress) ∧
    (files.length < max_consecutive_failures - st.consecutive_failures →
      (migrate_loop env n s files i st).2 = .completed) := by
  intro files
  induction files with
  | nil =>
    intro i st _ _ hc
    refine ⟨by simp [migrate_loop], by simp [migrate_loop], fun hlen => ?_, fun _ => by simp [migrate_loop]⟩
    simp only [List.length_nil, Nat.le_zero] at hlen
    omega
  | cons f rest ih =>
    intro i st hread hmig hc
    have hrf : f.readData ≠ none := hread f (by simp)
    obtain ⟨c, hr⟩ : ∃ c, f.readData = some c := by
      cases hcase : f.readData with
      | none => exact absurd hcase hrf
      | some c => exact ⟨c, rfl⟩
    have hmf : is_migrated st.progress (env.keyOf f.rel) = false := hmig f (by simp)
    obtain ⟨hcons, herr, hmid, hproc, hdisk⟩ :=
      migrate_single_file_ins_fail env f { st with processed := st.processed + 1 } hmf c hr (hins _)
    simp only [migrate_loop]
    by_cases hhalt : max_consecutive_failures ≤
        (migrate_single_file env f { st with processed := st.processed + 1 }).2.consecutive_failures
    · rw [if_pos hhalt]
      rw [hcons] at hhalt
      simp only at hhalt
      have hmin : min (f :: rest).length (max_consecutive_failures - st.consecutive_failures) = 1 := by
        simp only [List.length_cons, max_consecutive_failures] at *
        omega
      refine ⟨?_, ?_, fun _ => ⟨rfl, by simp⟩, fun hlt => ?_⟩
      · simp only [hmin]
        simpa using hproc
      · simp only [hmin]
        simpa using herr
      · simp only [List.length_cons, max_consecutive_failures] at *
        omega
    · rw [if_neg hhalt]
      rw [hcons] at hhalt
      simp only [not_le] at hhalt
      have hcons2 : (batch_checkpoint n s env.batch_size i
          { (migrate_single_file env f { st with processed := st.processed + 1 }).2 with
            progress := update_index
              (migrate_single_file env f { st with processed := st.processed + 1 }).2.progress
              (i + 1) }).consecutive_failures = st.consecutive_failures + 1 := by
        simpa using hcons
      have hmid2 : (batch_checkpoint n s env.batch_size i
          { (migrate_single_file env f { st with processed := st.processed + 1 }).2 with
            progress := update_index
              (migrate_single_file env f { st with processed := st.processed + 1 }).2.progress
              (i + 1) }).progress.migrated_ids = st.progress.migrated_ids := by
        simpa using hmid
      obtain ⟨ihp, ihe, ihh, ihc⟩ := ih (i + 1)
        (batch_checkpoint n s env.batch_size i
          { (migrate_single_file env f { st with processed := st.processed + 1 }).2 with
            progress := update_index
              (migrate_single_file env f { st with processed := st.processed + 1 }).2.progress
              (i + 1) })
        (fun g hg => hread g (by simp [hg]))
        (fun g hg => by
          have h2 := hmig g (by simp [hg])
          simpa [is_migrated, hmid] using h2)
        (by rw [hcons2]; simp only [max_consecutive_failures] at *; omega)
      rw [hcons2] at ihp ihe ihh ihc
      refine ⟨?_, ?_, fun hlen => ?_, fun hlt => ?_⟩
      · rw [ihp]
        have : (batch_checkpoint n s env.batch_size i
            { (migrate_single_file env f { st with processed := st.processed + 1 }).2 with
              progress := update_index
                (migrate_single_file env f { st with processed := st.processed + 1 }).2.progress
                (i + 1) }).processed = st.processed + 1 := by
          simpa using hproc
        rw [this]
        simp only [List.length_cons, max_consecutive_failures] at *
        omega
      · rw [ihe]
        have : (batch_checkpoint n s env.batch_size i
            { (migrate_single_file env f { st with processed := st.processed + 1 }).2 with
              progress := update_index
                (migrate_single_file env f { st with processed := st.processed + 1 }).2.progress
                (i + 1) }).progress.stats.errors = st.progress.stats.errors + 1 := by
          simpa using herr
        rw [this]
        simp only [List.length_cons, max_consecutive_failures] at *
        omega
      · exact ihh (by simp only [List.length_cons, max_consecutive_failures] at *; omega)
      · exact ihc (by simp only [List.length_cons, max_consecutive_failures] at *; omega)

/-! ## Run-level helper lemmas -/

theorem migrate_all_of_completed (env : MigratorEnv) (files : List FileEntry) (p0 : ProgressData)
    (h : (migrate_loop env files.length (prepare_progress env files p0).last_file_index
          (files.drop (prepare_progress env files p0).last_file_index)
          (prepare_progress env files p0).last_file_index
          (fetch_existing_ids env (initial_run_state (prepare_progress env files p0)))).2
        = .completed) :
    migrate_all env files p0 =
      (saveLedger (migrate_loop env files.length (prepare_progress env files p0).last_file_index
          (files.drop (prepare_progress env files p0).last_file_index)
          (prepare_progress env files p0).last_file_index
          (fetch_existing_ids env (initial_run_state (prepare_progress env files p0)))).1,
       .completed) := by
  simp only [migrate_all]
  rw [h]

theorem migrate_all_of_halted (env : MigratorEnv) (files : List FileEntry) (p0 : ProgressData)
    (h : (migrate_loop env files.length (prepare_progress env files p0).last_file_index
          (files.drop (prepare_progress env files p0).last_file_index)
          (prepare_progress env files p0).last_file_index
          (fetch_existing_ids env (initial_run_state (prepare_progress env files p0)))).2
        = .haltedSystemic) :
    migrate_all env files p0 =
      ((migrate_loop env files.length (prepare_progress env files p0).last_file_index
          (files.drop (prepare_progress env files p0).last_file_index)
          (prepare_progress env files p0).last_file_index
          (fetch_existing_ids env (initial_run_state (prepare_progress env files p0)))).1,
       .haltedSystemic) := by
  simp only [migrate_all]
  rw [h]

theorem migrate_all_resume_done (env : MigratorEnv) (files : List FileEntry) (p0 : ProgressData)
    (h : p0.last_file_index = files.length) :
    migrate_all env files p0 =
      (saveLedger (fetch_existing_ids env (initial_run_state (prepare_progress env files p0))),
       .completed) := by
  have hd : files.drop (prepare_progress env files p0).last_file_index = [] := by
    simp [h, List.drop_length]
  simp only [migrate_all]
  rw [hd]
  simp [migrate_loop]

/-! ## Claim theorems: engine -/

/-- Claim C1 (amended): in a run over a fresh ledger in which every
Remote Store insert fails and every candidate file is readable, the
engine halts with the systemic-failure signal after processing exactly
`max_consecutive_failures` (10) files, saves the ledger as the last
action before halting, and the persisted ledger records exactly 10
failures.  (Unreadable or already-migrated files do not advance the
consecutive-failure counter, so without these provisos more than 10
files can be processed.) -/
theorem claim_C1 (env : MigratorEnv) (files : List FileEntry)
    (hins : ∀ k, env.ins k ≠ .ok)
    (hread : ∀ f ∈ files, f.readData ≠ none)
    (hlen : max_consecutive_failures ≤ files.length) :
    (migrate_all env files initialData).2 = .haltedSystemic ∧
    (migrate_all env files initialData).1.processed = max_consecutive_failures ∧
    (migrate_all env files initialData).1.disk =
      some (migrate_all env files initialData).1.progress ∧
    (migrate_all env files initialData).1.progress.stats.errors = max_consecutive_failures := by
  have h0 : (prepare_progress env files initialData).last_file_index = 0 := by simp
  have hdrop : files.drop (prepare_progress env files initialData).last_file_index = files := by
    rw [h0]; exact List.drop_zero files
  obtain ⟨hp, he, hh, -⟩ :=
    migrate_loop_allFail env hins files.length
      (prepare_progress env files initialData).last_file_index
      (files.drop (prepare_progress env files initialData).last_file_index)
      (prepare_progress env files initialData).last_file_index
      (fetch_existing_ids env (initial_run_state (prepare_progress env files initialData)))
      (by rw [hdrop]; exact hread)
      (by rw [hdrop]; intro f _; simp [is_migrated])
      (by simp [max_consecutive_failures])
  rw [hdrop] at hp he hh
  simp only [fetch_existing_ids_consecutive, initial_run_state_consecutive, Nat.sub_zero,
    fetch_existing_ids_processed, initial_run_state_processed, fetch_existing_ids_progress,
    initial_run_state_progress, prepare_progress_stats_errors, initialData_stats_errors] at hp he hh
  obtain ⟨hout, hdisk⟩ := hh hlen
  rw [← hdrop] at hout
  rw [migrate_all_of_halted env files initialData hout]
  rw [hdrop] at hout ⊢
  refine ⟨rfl, ?_, ?_, ?_⟩
  · rw [hp]; omega
  · exact hdisk
  · rw [he]; omega

/-- Witness for claim C1: ten readable files against a store whose every
insert raises. -/
theorem claim_C1_witness :
    (migrate_all exEnvFail filesTen initialData).2 = .haltedSystemic ∧
    (migrate_all exEnvFail filesTen initialData).1.processed = max_consecutive_failures ∧
    (migrate_all exEnvFail filesTen initialData).1.disk =
      some (migrate_all exEnvFail filesTen initialData).1.progress ∧
    (migrate_all exEnvFail filesTen initialData).1.progress.stats.errors =
      max_consecutive_failures :=
  claim_C1 exEnvFail filesTen (fun k => by simp [exEnvFail, exEnv]) (by decide) (by decide)

/-- Counterexample to claim C1 as stated: a run in which every insert
fails but the first file is unreadable processes eleven files before
halting, because a read failure does not advance the consecutive-failure
counter. -/
theorem claim_C1_cex :
    (∀ k, exEnvFail.ins k ≠ InsertOutcome.ok) ∧
    (migrate_all exEnvFail filesElevenOneBad initialData).2 = .haltedSystemic ∧
    (migrate_all exEnvFail filesElevenOneBad initialData).1.processed = 11 ∧
    ¬ ((migrate_all exEnvFail filesElevenOneBad initialData).1.processed ≤ 10) := by
  refine ⟨fun k => by simp [exEnvFail, exEnv], ?_, ?_, ?_⟩ <;> decide

/-- Claim C4 (amended): a read failure marks the file failed in the
ledger under its relative path, quarantines it, and counts in the error
statistics, but it leaves the consecutive-failure counter unchanged
(unlike an insert failure, which increments it). -/
theorem claim_C4 (env : MigratorEnv) (f : FileEntry) (st : RunState)
    (hmig : is_migrated st.progress (env.keyOf f.rel) = false)
    (hread : f.readData = none) :
    (migrate_single_file env f st).1 = false ∧
    dictGet (migrate_single_file env f st).2.progress.failed f.rel =
      some "Could not read file content" ∧
    (migrate_single_file env f st).2.progress.stats.errors = st.progress.stats.errors + 1 ∧
    (migrate_single_file env f st).2.quarantined = st.quarantined ++ [f.rel] ∧
    (migrate_single_file env f st).2.consecutive_failures = st.consecutive_failures ∧
    (migrate_single_file env f st).2.insertCalls = st.insertCalls := by
  rw [migrate_single_file_read_fail env f st hmig hread]
  refine ⟨rfl, ?_, rfl, rfl, rfl, rfl⟩
  simpa [mark_failed] using dictGet_dictSet st.progress.failed f.rel "Could not read file content"

/-- Witness for claim C4 on a concrete unreadable file. -/
theorem claim_C4_witness :
    (migrate_single_file exEnv { pathStr := "/repo/bad.txt", rel := "bad.txt", readData := none }
        exState).1 = false ∧
    dictGet (migrate_single_file exEnv
        { pathStr := "/repo/bad.txt", rel := "bad.txt", readData := none }
        exState).2.progress.failed "bad.txt" = some "Could not read file content" ∧
    (migrate_single_file exEnv { pathStr := "/repo/bad.txt", rel := "bad.txt", readData := none }
        exState).2.progress.stats.errors = exState.progress.stats.errors + 1 ∧
    (migrate_single_file exEnv { pathStr := "/repo/bad.txt", rel := "bad.txt", readData := none }
        exState).2.quarantined = exState.quarantined ++ ["bad.txt"] ∧
    (migrate_single_file exEnv { pathStr := "/repo/bad.txt", rel := "bad.txt", readData := none }
        exState).2.consecutive_failures = exState.consecutive_failures ∧
    (migrate_single_file exEnv { pathStr := "/repo/bad.txt", rel := "bad.txt", readData := none }
        exState).2.insertCalls = exState.insertCalls :=
  claim_C4 exEnv { pathStr := "/repo/bad.txt", rel := "bad.txt", readData := none } exState
    (by decide) rfl

/-- Counterexample to claim C4 as stated: on a read failure the
consecutive-failure counter is not incremented. -/
theorem claim_C4_cex :
    ¬ ((migrate_single_file exEnv
          { pathStr := "/repo/bad.txt", rel := "bad.txt", readData := none }
          exState).2.consecutive_failures = exState.consecutive_failures + 1) := by
  decide

/-- Claim C9 (documenting the code bug): the engine never invokes
`mark_skipped` — in every run, smart mode included, the skipped set and
skipped counter of the ledger are returned unchanged — and in the
concrete smart-mode run whose Remote Store listing already contains a
row, the file is inserted anyway and the skip counter stays zero. -/
theorem claim_C9 :
    (∀ (env : MigratorEnv) (files : List FileEntry) (p0 : ProgressData),
      (migrate_all env files p0).1.progress.skipped = p0.skipped ∧
      (migrate_all env files p0).1.progress.stats.skipped = p0.stats.skipped) ∧
    ((migrate_all exEnvSmart [{ pathStr := "/repo/a.txt", rel := "a.txt", readData := some [0x68] }]
        initialData).1.existing_ids = [1] ∧
     (migrate_all exEnvSmart [{ pathStr := "/repo/a.txt", rel := "a.txt", readData := some [0x68] }]
        initialData).1.insertCalls = 1 ∧
     (migrate_all exEnvSmart [{ pathStr := "/repo/a.txt", rel := "a.txt", readData := some [0x68] }]
        initialData).1.progress.stats.skipped = 0 ∧
     (migrate_all exEnvSmart [{ pathStr := "/repo/a.txt", rel := "a.txt", readData := some [0x68] }]
        initialData).1.progress.stats.migrated = 1) := by
  constructor
  · intro env files p0
    cases hcase : (migrate_loop env files.length (prepare_progress env files p0).last_file_index
        (files.drop (prepare_progress env files p0).last_file_index)
        (prepare_progress env files p0).last_file_index
        (fetch_existing_ids env (initial_run_state (prepare_progress env files p0)))).2 with
    | completed =>
      rw [migrate_all_of_completed env files p0 hcase]
      simp [migrate_loop_skipped_inv]
    | haltedSystemic =>
      rw [migrate_all_of_halted env files p0 hcase]
      simp [migrate_loop_skipped_inv]
  · refine ⟨?_, ?_, ?_, ?_⟩ <;> decide

/-- Claim C3: a file whose identity is already in the migrated set is
handled without any read and without any insert (the per-file step
returns success with the state untouched); the loop still advances the
cursor past it; and a second run over an unchanged tree with the ledger
of a fully successful first run performs zero reads and zero inserts. -/
theorem claim_C3 (env : MigratorEnv) (f : FileEntry) (rest files : List FileEntry)
    (n s i : Nat) (st : RunState)
    (hmig : is_migrated st.progress (env.keyOf f.rel) = true)
    (hc : st.consecutive_failures < max_consecutive_failures)
    (hread : ∀ g ∈ files, g.readData ≠ none)
    (hok : ∀ k, env.ins k = .ok) :
    migrate_single_file env f st = (true, st) ∧
    migrate_loop env n s (f :: rest) i st =
      migrate_loop env n s rest (i + 1)
        (batch_checkpoint n s env.batch_size i
          { st with processed := st.processed + 1, progress := update_index st.progress (i + 1) }) ∧
    (migrate_all env files ((migrate_all env files initialData).1.progress)).1.insertCalls = 0 ∧
    (migrate_all env files ((migrate_all env files initialData).1.progress)).1.readCalls = 0 ∧
    (migrate_all env files ((migrate_all env files initialData).1.progress)).2 = .completed := by
  have hstep : migrate_single_file env f st = (true, st) :=
    migrate_single_file_migrated env f st hmig
  have hstep' : migrate_single_file env f { st with processed := st.processed + 1 } =
      (true, { st with processed := st.processed + 1 }) :=
    migrate_single_file_migrated env f _ hmig
  refine ⟨hstep, ?_, ?_⟩
  · simp only [migrate_loop]
    rw [hstep']
    rw [if_neg (by exact Nat.not_le.mpr hc)]
  · -- Run 1 completes; its final cursor equals the number of files.
    have hc1 : (migrate_loop env files.length
        (prepare_progress env files initialData).last_file_index
        (files.drop (prepare_progress env files initialData).last_file_index)
        (prepare_progress env files initialData).last_file_index
        (fetch_existing_ids env (initial_run_state (prepare_progress env files initialData)))).2
        = .completed :=
      migrate_loop_ok_completes env hok files.length _ _ _ _ (by simp)
    have hall1 := migrate_all_of_completed env files initialData hc1
    have hidx := migrate_loop_completed_index env files.length
        (prepare_progress env files initialData).last_file_index
        (files.drop (prepare_progress env files initialData).last_file_index)
        (prepare_progress env files initialData).last_file_index
        (fetch_existing_ids env (initial_run_state (prepare_progress env files initialData))) hc1
    have h0 : (prepare_progress env files initialData).last_file_index = 0 := by simp
    rw [h0, List.drop_zero] at hidx
    have hidx2 : (migrate_all env files initialData).1.progress.last_file_index = files.length := by
      rw [hall1]
      simp only [saveLedger_progress]
      rw [h0, List.drop_zero]
      rw [hidx]
      by_cases hf : files = []
      · simp [hf]
      · simp [hf]
    rw [migrate_all_resume_done env files _ hidx2]
    refine ⟨by simp [saveLedger], by simp [saveLedger], rfl⟩

/-- Witness for claim C3: a concrete already-migrated file and a second
run over ten readable files with an all-succeeding store. -/
theorem claim_C3_witness :
    migrate_single_file exEnv { pathStr := "/repo/x.txt", rel := "x.txt", readData := some [1] }
        { exState with progress := { initialData with migrated_ids := ["x.txt"] } } =
      (true, { exState with progress := { initialData with migrated_ids := ["x.txt"] } }) ∧
    migrate_loop exEnv 1 0
        [{ pathStr := "/repo/x.txt", rel := "x.txt", readData := some [1] }] 0
        { exState with progress := { initialData with migrated_ids := ["x.txt"] } } =
      migrate_loop exEnv 1 0 [] (0 + 1)
        (batch_checkpoint 1 0 exEnv.batch_size 0
          { { exState with progress := { initialData with migrated_ids := ["x.txt"] } } with
            processed :=
              { exState with
                progress := { initialData with migrated_ids := ["x.txt"] } }.processed + 1
            progress := update_index
              { exState with
                progress := { initialData with migrated_ids := ["x.txt"] } }.progress (0 + 1) }) ∧
    (migrate_all exEnv filesTen ((migrate_all exEnv filesTen initialData).1.progress)).1.insertCalls
      = 0 ∧
    (migrate_all exEnv filesTen ((migrate_all exEnv filesTen initialData).1.progress)).1.readCalls
      = 0 ∧
    (migrate_all exEnv filesTen ((migrate_all exEnv filesTen initialData).1.progress)).2
      = .completed :=
  claim_C3 exEnv { pathStr := "/repo/x.txt", rel := "x.txt", readData := some [1] } [] filesTen
    1 0 0 { exState with progress := { initialData with migrated_ids := ["x.txt"] } }
    (by decide) (by decide) (by decide) (fun k => rfl)

/-! ## Claim theorem: File Selector -/

theorem pathLe_trans (a b c : FSPath) (hab : pathLe a b = true) (hbc : pathLe b c = true) :
    pathLe a c = true := by
  simp only [pathLe, decide_eq_true_eq] at *
  exact le_trans hab hbc

theorem pathLe_total (a b : FSPath) : (pathLe a b || pathLe b a) = true := by
  simp only [pathLe, Bool.or_eq_true, decide_eq_true_eq]
  exact le_total _ _

theorem find_all_text_files_sorted (l : List FSPath) :
    (find_all_text_files l).Pairwise (fun a b => a.parts ≤ b.parts) :=
  List.Pairwise.imp (fun h => by simpa [pathLe] using h)
    (List.sorted_mergeSort pathLe_trans pathLe_total (l.filter should_process_file))

theorem pairwise_parts_lt (l : List FSPath) (hle : l.Pairwise (fun a b => a.parts ≤ b.parts))
    (hnd : (l.map FSPath.parts).Nodup) : l.Pairwise (fun a b => a.parts < b.parts) := by
  have hsle : (l.map FSPath.parts).Sorted (· ≤ ·) := List.pairwise_map.mpr hle
  exact List.pairwise_map.mp (hsle.lt_of_le hnd)

/-- Claim C7 (amended): the selector returns the candidates that pass
the inclusion and exclusion rules sorted by `pathlib`'s path ordering —
lexicographic comparison of the tuples of path parts, which is not raw
path-string order — and two enumerations of the same file set (in any
order) produce the same output list. -/
theorem claim_C7 (enum1 enum2 : List FSPath)
    (hperm : enum1.Perm enum2) (hnd : (enum1.map FSPath.parts).Nodup) :
    (find_all_text_files enum1).Pairwise (fun a b => a.parts ≤ b.parts) ∧
    find_all_text_files enum1 = find_all_text_files enum2 := by
  have hsorted1 := find_all_text_files_sorted enum1
  have hsorted2 := find_all_text_files_sorted enum2
  have hpermf : (enum1.filter should_process_file).Perm (enum2.filter should_process_file) :=
    hperm.filter should_process_file
  have hperm1 : (find_all_text_files enum1).Perm (find_all_text_files enum2) :=
    ((enum1.filter should_process_file).mergeSort_perm pathLe).trans
      (hpermf.trans ((enum2.filter should_process_file).mergeSort_perm pathLe).symm)
  have hnd1 : ((find_all_text_files enum1).map FSPath.parts).Nodup := by
    have hfsub : ((enum1.filter should_process_file).map FSPath.parts).Nodup :=
      hnd.sublist ((List.filter_sublist enum1).map FSPath.parts)
    have hpm : ((find_all_text_files enum1).map FSPath.parts).Perm
        ((enum1.filter should_process_file).map FSPath.parts) :=
      ((enum1.filter should_process_file).mergeSort_perm pathLe).map FSPath.parts
    exact hpm.nodup_iff.mpr hfsub
  have hnd2 : ((find_all_text_files enum2).map FSPath.parts).Nodup :=
    (hperm1.map FSPath.parts).nodup_iff.mp hnd1
  refine ⟨hsorted1, ?_⟩
  haveI : IsAntisymm FSPath (fun a b => a.parts < b.parts) :=
    ⟨fun a b h1 h2 => absurd (lt_trans h1 h2) (lt_irrefl _)⟩
  exact List.eq_of_perm_of_sorted hperm1
    (pairwise_parts_lt _ hsorted1 hnd1) (pairwise_parts_lt _ hsorted2 hnd2)

/-- Witness for claim C7 on a two-file enumeration presented in both
orders. -/
theorem claim_C7_witness :
    (find_all_text_files [exPathA, exPathB]).Pairwise (fun a b => a.parts ≤ b.parts) ∧
    find_all_text_files [exPathA, exPathB] = find_all_text_files [exPathB, exPathA] :=
  claim_C7 [exPathA, exPathB] [exPathB, exPathA]
    (List.Perm.swap exPathB exPathA []) (by decide)

/-- Counterexample to claim C7 as stated: on the enumeration holding
`/r/a.b/c.txt` and `/r/a/b.txt`, the selector puts `/r/a/b.txt` first
(path-parts order), although its path string is the larger of the two —
the output is not sorted lexicographically by path string. -/
theorem claim_C7_cex :
    find_all_text_files [exPathB, exPathA] = [exPathA, exPathB] ∧
    ¬ (exPathA.pathStr ≤ exPathB.pathStr) := by
  constructor
  · have hfil : [exPathB, exPathA].filter should_process_file = [exPathB, exPathA] := by
      decide
    have hperm : (find_all_text_files [exPathB, exPathA]).Perm [exPathA, exPathB] := by
      unfold find_all_text_files
      rw [hfil]
      exact (List.mergeSort_perm _ pathLe).trans (List.Perm.swap exPathA exPathB [])
    have hsorted := find_all_text_files_sorted [exPathB, exPathA]
    have hnd : ((find_all_text_files [exPathB, exPathA]).map FSPath.parts).Nodup :=
      (hperm.map FSPath.parts).nodup_iff.mpr (by decide)
    have hltAB : exPathA.parts < exPathB.parts := by
      show (["/", "r", "a", "b.txt"] : List String) < ["/", "r", "a.b", "c.txt"]
      apply List.Lex.cons
      apply List.Lex.cons
      apply List.Lex.rel
      rw [String.lt_iff_toList_lt]
      decide
    have hlit : ([exPathA, exPathB] : List FSPath).Pairwise (fun a b => a.parts < b.parts) := by
      refine List.Pairwise.cons ?_ (List.pairwise_singleton _ _)
      intro b hb
      simp only [List.mem_singleton] at hb
      subst hb
      exact hltAB
    haveI : IsAntisymm FSPath (fun a b => a.parts < b.parts) :=
      ⟨fun a b h1 h2 => absurd (lt_trans h1 h2) (lt_irrefl _)⟩
    exact List.eq_of_perm_of_sorted hperm (pairwise_parts_lt _ hsorted hnd) hlit
  · rw [String.le_iff_toList_le]
    decide

/-! ## UTF-8 codec lemmas -/

theorem cont3_bounds (b b1 : Nat) (h1 : cont3lo b ≤ b1) (h2 : b1 ≤ cont3hi b) :
    0x80 ≤ b1 ∧ b1 ≤ 0xBF := by
  unfold cont3lo at h1
  unfold cont3hi at h2
  constructor <;> (split at h1 <;> split at h2 <;> omega)

theorem cont4_bounds (b b1 : Nat) (h1 : cont4lo b ≤ b1) (h2 : b1 ≤ cont4hi b) :
    0x80 ≤ b1 ∧ b1 ≤ 0xBF := by
  unfold cont4lo at h1
  unfold cont4hi at h2
  constructor <;> (split at h1 <;> split at h2 <;> omega)

theorem cont3_scalar (b b1 b2 : Nat) (hb : 0xE0 ≤ b ∧ b ≤ 0xEF)
    (h1 : cont3lo b ≤ b1) (h2 : b1 ≤ cont3hi b) (h3 : 0x80 ≤ b2) (h4 : b2 ≤ 0xBF) :
    IsScalar ((b - 0xE0) * 0x1000 + (b1 - 0x80) * 0x40 + (b2 - 0x80)) := by
  unfold cont3lo at h1
  unfold cont3hi at h2
  constructor <;> (split at h1 <;> split at h2 <;> omega)

theorem cont4_scalar (b b1 b2 b3 : Nat) (hb : 0xF0 ≤ b ∧ b ≤ 0xF4)
    (h1 : cont4lo b ≤ b1) (h2 : b1 ≤ cont4hi b) (h3 : 0x80 ≤ b2) (h4 : b2 ≤ 0xBF)
    (h5 : 0x80 ≤ b3) (h6 : b3 ≤ 0xBF) :
    IsScalar ((b - 0xF0) * 0x40000 + (b1 - 0x80) * 0x1000 + (b2 - 0x80) * 0x40 + (b3 - 0x80)) := by
  unfold cont4lo at h1
  unfold cont4hi at h2
  constructor <;> (split at h1 <;> split at h2 <;> omega)

theorem utf8Parse_none_ge (b : Nat) (rest : List Nat) (h : utf8Parse b rest = none) :
    0x80 ≤ b := by
  by_contra hlt
  simp only [not_le] at hlt
  unfold utf8Parse at h
  rw [if_pos hlt] at h
  exact Option.noConfusion h

theorem utf8Parse_spec (b : Nat) (rest : List Nat) (cp k : Nat)
    (h : utf8Parse b rest = some (cp, k)) :
    IsScalar cp ∧ k ≤ rest.length ∧ (∀ x ∈ rest.take k, 0x80 ≤ x ∧ x ≤ 0xBF) := by
  unfold utf8Parse at h
  by_cases hA : b < 0x80
  · rw [if_pos hA] at h
    simp only [Option.some.injEq, Prod.mk.injEq] at h
    obtain ⟨rfl, rfl⟩ := h
    exact ⟨⟨by omega, by omega⟩, Nat.zero_le _, by simp⟩
  rw [if_neg hA] at h
  by_cases hB : 0xC2 ≤ b ∧ b ≤ 0xDF
  · rw [if_pos hB] at h
    rcases rest with - | ⟨b1, t⟩
    · exact Option.noConfusion h
    · simp only [] at h
      by_cases hc : 0x80 ≤ b1 ∧ b1 ≤ 0xBF
      · rw [if_pos hc] at h
        simp only [Option.some.injEq, Prod.mk.injEq] at h
        obtain ⟨rfl, rfl⟩ := h
        refine ⟨⟨by omega, by omega⟩, by simp, ?_⟩
        intro x hx
        simp only [List.take_succ_cons, List.take_zero, List.mem_singleton] at hx
        subst hx
        exact hc
      · rw [if_neg hc] at h
        exact Option.noConfusion h
  rw [if_neg hB] at h
  by_cases hC : 0xE0 ≤ b ∧ b ≤ 0xEF
  · rw [if_pos hC] at h
    rcases rest with - | ⟨b1, - | ⟨b2, t⟩⟩
    · exact Option.noConfusion h
    · exact Option.noConfusion h
    · simp only [] at h
      by_cases hc : (cont3lo b ≤ b1 ∧ b1 ≤ cont3hi b) ∧ (0x80 ≤ b2 ∧ b2 ≤ 0xBF)
      · rw [if_pos hc] at h
        simp only [Option.some.injEq, Prod.mk.injEq] at h
        obtain ⟨rfl, rfl⟩ := h
        refine ⟨cont3_scalar b b1 b2 hC hc.1.1 hc.1.2 hc.2.1 hc.2.2, by simp, ?_⟩
        intro x hx
        simp only [List.take_succ_cons, List.take_zero, List.mem_cons,
          List.not_mem_nil, or_false] at hx
        rcases hx with rfl | rfl
        · exact cont3_bounds b x hc.1.1 hc.1.2
        · exact hc.2
      · rw [if_neg hc] at h
        exact Option.noConfusion h
  rw [if_neg hC] at h
  by_cases hD : 0xF0 ≤ b ∧ b ≤ 0xF4
  · rw [if_pos hD] at h
    rcases rest with - | ⟨b1, - | ⟨b2, - | ⟨b3, t⟩⟩⟩
    · exact Option.noConfusion h
    · exact Option.noConfusion h
    · exact Option.noConfusion h
    · simp only [] at h
      by_cases hc : (cont4lo b ≤ b1 ∧ b1 ≤ cont4hi b) ∧ (0x80 ≤ b2 ∧ b2 ≤ 0xBF) ∧
          (0x80 ≤ b3 ∧ b3 ≤ 0xBF)
      · rw [if_pos hc] at h
        simp only [Option.some.injEq, Prod.mk.injEq] at h
        obtain ⟨rfl, rfl⟩ := h
        refine ⟨cont4_scalar b b1 b2 b3 hD hc.1.1 hc.1.2 hc.2.1.1 hc.2.1.2 hc.2.2.1 hc.2.2.2,
          by simp, ?_⟩
        intro x hx
        simp only [List.take_succ_cons, List.take_zero, List.mem_cons,
          List.not_mem_nil, or_false] at hx
        rcases hx with rfl | rfl | rfl
        · exact cont4_bounds b x hc.1.1 hc.1.2
        · exact hc.2.1
        · exact hc.2.2
      · rw [if_neg hc] at h
        exact Option.noConfusion h
  rw [if_neg hD] at h
  exact Option.noConfusion h

theorem failLen_spec (b : Nat) (rest : List Nat) :
    failLen b rest ≤ rest.length ∧
    (∀ x ∈ rest.take (failLen b rest), 0x80 ≤ x ∧ x ≤ 0xBF) := by
  unfold failLen
  by_cases hC : 0xE0 ≤ b ∧ b ≤ 0xEF
  · rw [if_pos hC]
    rcases rest with - | ⟨b1, t⟩
    · exact ⟨by simp, by simp⟩
    · simp only []
      by_cases hc : cont3lo b ≤ b1 ∧ b1 ≤ cont3hi b
      · rw [if_pos hc]
        refine ⟨by simp, ?_⟩
        intro x hx
        simp only [List.take_succ_cons, List.take_zero, List.mem_singleton] at hx
        subst hx
        exact cont3_bounds b x hc.1 hc.2
      · rw [if_neg hc]
        exact ⟨by simp, by simp⟩
  rw [if_neg hC]
  by_cases hD : 0xF0 ≤ b ∧ b ≤ 0xF4
  · rw [if_pos hD]
    rcases rest with - | ⟨b1, - | ⟨b2, t⟩⟩
    · exact ⟨by simp, by simp⟩
    · simp only []
      by_cases hc : cont4lo b ≤ b1 ∧ b1 ≤ cont4hi b
      · rw [if_pos hc]
        refine ⟨by simp, ?_⟩
        intro x hx
        simp only [List.take_succ_cons, List.take_zero, List.mem_singleton] at hx
        subst hx
        exact cont4_bounds b x hc.1 hc.2
      · rw [if_neg hc]
        exact ⟨by simp, by simp⟩
    · simp only []
      by_cases hc : cont4lo b ≤ b1 ∧ b1 ≤ cont4hi b
      · rw [if_pos hc]
        by_cases hc2 : 0x80 ≤ b2 ∧ b2 ≤ 0xBF
        · rw [if_pos hc2]
          refine ⟨by simp, ?_⟩
          intro x hx
          simp only [List.take_succ_cons, List.take_zero, List.mem_cons,
            List.not_mem_nil, or_false] at hx
          rcases hx with rfl | rfl
          · exact cont4_bounds b x hc.1 hc.2
          · exact hc2
        · rw [if_neg hc2]
          refine ⟨by simp, ?_⟩
          intro x hx
          simp only [List.take_succ_cons, List.take_zero, List.mem_singleton] at hx
          subst hx
          exact cont4_bounds b x hc.1 hc.2
      · rw [if_neg hc]
        exact ⟨by simp, by simp⟩
  rw [if_neg hD]
  exact ⟨by simp, by simp⟩

theorem decodeReplace_nil : decodeReplace [] = [] := by
  rw [decodeReplace]

theorem decodeReplace_cons (b : Nat) (rest : List Nat) :
    decodeReplace (b :: rest) =
      match utf8Parse b rest with
      | some (cp, k) => cp :: decodeReplace (rest.drop k)
      | none => 0xFFFD :: decodeReplace (rest.drop (failLen b rest)) := by
  rw [decodeReplace]

theorem decodeSE_nil : decodeSE [] = [] := by
  rw [decodeSE]

theorem decodeSE_cons (b : Nat) (rest : List Nat) :
    decodeSE (b :: rest) =
      match utf8Parse b rest with
      | some (cp, k) => cp :: decodeSE (rest.drop k)
      | none => (0xDC00 + b) :: decodeSE rest := by
  rw [decodeSE]

theorem utf8Parse_encodeChar (c : Nat) (hc : IsScalar c) (rest : List Nat) :
    ∃ b tail, encodeChar c = b :: tail ∧
      utf8Parse b (tail ++ rest) = some (c, tail.length) := by
  obtain ⟨hlt, hns⟩ := hc
  by_cases h1 : c < 0x80
  · refine ⟨c, [], by simp [encodeChar, h1], ?_⟩
    unfold utf8Parse
    rw [if_pos h1]
    rfl
  by_cases h2 : c < 0x800
  · refine ⟨0xC0 + c / 0x40, [0x80 + c % 0x40], by rw [encodeChar, if_neg h1, if_pos h2], ?_⟩
    unfold utf8Parse
    rw [if_neg (by omega), if_pos (by constructor <;> omega)]
    simp only [List.cons_append, List.nil_append]
    rw [if_pos (by constructor <;> omega)]
    simp only [Option.some.injEq, Prod.mk.injEq, List.length_singleton]
    exact ⟨by omega, trivial⟩
  by_cases h3 : c < 0x10000
  · refine ⟨0xE0 + c / 0x1000, [0x80 + c / 0x40 % 0x40, 0x80 + c % 0x40],
      by rw [encodeChar, if_neg h1, if_neg h2, if_pos h3], ?_⟩
    unfold utf8Parse
    rw [if_neg (by omega), if_neg (by omega), if_pos (by constructor <;> omega)]
    simp only [List.cons_append, List.nil_append]
    have hcond : (cont3lo (0xE0 + c / 0x1000) ≤ 0x80 + c / 0x40 % 0x40 ∧
        0x80 + c / 0x40 % 0x40 ≤ cont3hi (0xE0 + c / 0x1000)) ∧
        (0x80 ≤ 0x80 + c % 0x40 ∧ 0x80 + c % 0x40 ≤ 0xBF) := by
      refine ⟨⟨?_, ?_⟩, by omega, by omega⟩
      · unfold cont3lo
        split <;> omega
      · unfold cont3hi
        split <;> omega
    rw [if_pos hcond]
    simp only [Option.some.injEq, Prod.mk.injEq, List.length_cons, List.length_singleton]
    exact ⟨by omega, by simp⟩
  · refine ⟨0xF0 + c / 0x40000,
      [0x80 + c / 0x1000 % 0x40, 0x80 + c / 0x40 % 0x40, 0x80 + c % 0x40],
      by rw [encodeChar, if_neg h1, if_neg h2, if_neg h3], ?_⟩
    unfold utf8Parse
    rw [if_neg (by omega), if_neg (by omega), if_neg (by omega),
      if_pos (by constructor <;> omega)]
    simp only [List.cons_append, List.nil_append]
    have hcond : (cont4lo (0xF0 + c / 0x40000) ≤ 0x80 + c / 0x1000 % 0x40 ∧
        0x80 + c / 0x1000 % 0x40 ≤ cont4hi (0xF0 + c / 0x40000)) ∧
        (0x80 ≤ 0x80 + c / 0x40 % 0x40 ∧ 0x80 + c / 0x40 % 0x40 ≤ 0xBF) ∧
        (0x80 ≤ 0x80 + c % 0x40 ∧ 0x80 + c % 0x40 ≤ 0xBF) := by
      refine ⟨⟨?_, ?_⟩, ⟨by omega, by omega⟩, by omega, by omega⟩
      · unfold cont4lo
        split <;> omega
      · unfold cont4hi
        split <;> omega
    rw [if_pos hcond]
    simp only [Option.some.injEq, Prod.mk.injEq, List.length_cons, List.length_singleton]
    exact ⟨by omega, by simp⟩

theorem decodeReplace_cons_valid (c : Nat) (hc : IsScalar c) (bs : List Nat) :
    decodeReplace (encodeChar c ++ bs) = c :: decodeReplace bs := by
  obtain ⟨b, tail, henc, hparse⟩ := utf8Parse_encodeChar c hc bs
  rw [henc, List.cons_append, decodeReplace_cons, hparse]
  simp only []
  rw [List.drop_left]

theorem encodeChar_head_not_cont (c : Nat) (hc : c < 0x110000) :
    ∃ b tail, encodeChar c = b :: tail ∧ (b < 0x80 ∨ 0xC0 ≤ b) := by
  unfold encodeChar
  by_cases h1 : c < 0x80
  · exact ⟨c, [], by rw [if_pos h1], Or.inl h1⟩
  by_cases h2 : c < 0x800
  · exact ⟨_, _, by rw [if_neg h1, if_pos h2], Or.inr (by omega)⟩
  by_cases h3 : c < 0x10000
  · exact ⟨_, _, by rw [if_neg h1, if_neg h2, if_pos h3], Or.inr (by omega)⟩
  · exact ⟨_, _, by rw [if_neg h1, if_neg h2, if_neg h3], Or.inr (by omega)⟩

theorem decodeReplace_scalar_aux : ∀ (N : Nat) (bs : List Nat), bs.length ≤ N →
    ∀ c ∈ decodeReplace bs, IsScalar c := by
  intro N
  induction N with
  | zero =>
    intro bs hlen c hc
    have hnil : bs = [] := List.eq_nil_of_length_eq_zero (by omega)
    subst hnil
    rw [decodeReplace_nil] at hc
    exact absurd hc (List.not_mem_nil c)
  | succ n ih =>
    intro bs hlen c hc
    match bs with
    | [] =>
      rw [decodeReplace_nil] at hc
      exact absurd hc (List.not_mem_nil c)
    | b :: rest =>
      rw [decodeReplace_cons] at hc
      simp only [List.length_cons] at hlen
      cases hp : utf8Parse b rest with
      | some v =>
        obtain ⟨cp, k⟩ := v
        rw [hp] at hc
        simp only [] at hc
        rcases List.mem_cons.mp hc with rfl | hmem
        · exact (utf8Parse_spec b rest c k hp).1
        · exact ih (rest.drop k) (by simp only [List.length_drop]; omega) c hmem
      | none =>
        rw [hp] at hc
        simp only [] at hc
        rcases List.mem_cons.mp hc with rfl | hmem
        · exact ⟨by omega, by omega⟩
        · exact ih (rest.drop (failLen b rest)) (by simp only [List.length_drop]; omega) c hmem

theorem decodeReplace_mem_scalar (bs : List Nat) : ∀ c ∈ decodeReplace bs, IsScalar c :=
  decodeReplace_scalar_aux bs.length bs le_rfl

theorem decodeSE_wf_aux : ∀ (N : Nat) (bs : List Nat), bs.length ≤ N →
    (∀ b ∈ bs, b < 0x100) →
    ∀ c ∈ decodeSE bs, IsScalar c ∨ (0xDC80 ≤ c ∧ c ≤ 0xDCFF) := by
  intro N
  induction N with
  | zero =>
    intro bs hlen _ c hc
    have hnil : bs = [] := List.eq_nil_of_length_eq_zero (by omega)
    subst hnil
    rw [decodeSE_nil] at hc
    exact absurd hc (List.not_mem_nil c)
  | succ n ih =>
    intro bs hlen hb c hc
    match bs with
    | [] =>
      rw [decodeSE_nil] at hc
      exact absurd hc (List.not_mem_nil c)
    | b :: rest =>
      rw [decodeSE_cons] at hc
      simp only [List.length_cons] at hlen
      cases hp : utf8Parse b rest with
      | some v =>
        obtain ⟨cp, k⟩ := v
        rw [hp] at hc
        simp only [] at hc
        rcases List.mem_cons.mp hc with rfl | hmem
        · exact Or.inl (utf8Parse_spec b rest c k hp).1
        · exact ih (rest.drop k) (by simp only [List.length_drop]; omega)
            (fun x hx => hb x (by simp [List.drop_subset k rest hx])) c hmem
      | none =>
        rw [hp] at hc
        simp only [] at hc
        rcases List.mem_cons.mp hc with rfl | hmem
        · have hge := utf8Parse_none_ge b rest hp
          have hlt : b < 0x100 := hb b (by simp)
          exact Or.inr ⟨by omega, by omega⟩
        · exact ih rest (by omega) (fun x hx => hb x (by simp [hx])) c hmem

theorem decodeSE_mem_wf (bs : List Nat) (hb : ∀ b ∈ bs, b < 0x100) :
    ∀ c ∈ decodeSE bs, IsScalar c ∨ (0xDC80 ≤ c ∧ c ≤ 0xDCFF) :=
  decodeSE_wf_aux bs.length bs le_rfl hb

theorem encodeSE_eq_encBytes (s : List Nat)
    (h : ∀ c ∈ s, (0xD800 ≤ c ∧ c ≤ 0xDFFF) → (0xDC80 ≤ c ∧ c ≤ 0xDCFF)) :
    encodeSE s = some (encBytes s) := by
  induction s with
  | nil => rfl
  | cons c s ih =>
    unfold encodeSE encBytes
    by_cases h1 : 0xDC80 ≤ c ∧ c ≤ 0xDCFF
    · rw [if_pos h1, if_pos h1, ih (fun x hx => h x (by simp [hx]))]
      simp
    · have h2 : ¬ (0xD800 ≤ c ∧ c ≤ 0xDFFF) := fun hcon => h1 (h c (by simp) hcon)
      rw [if_neg h1, if_neg h2, if_neg h1, ih (fun x hx => h x (by simp [hx]))]
      simp

theorem encBytes_contPrefix : ∀ (s : List Nat) (k : Nat),
    (∀ c ∈ s, IsScalar c ∨ (0xDC80 ≤ c ∧ c ≤ 0xDCFF)) →
    k ≤ (encBytes s).length →
    (∀ x ∈ (encBytes s).take k, 0x80 ≤ x ∧ x ≤ 0xBF) →
    ∃ j, j ≤ s.length ∧ (∀ c ∈ s.take j, 0xDC80 ≤ c ∧ c ≤ 0xDCFF) ∧
      (encBytes s).drop k = encBytes (s.drop j) := by
  intro s
  induction s with
  | nil =>
    intro k hs hk _
    have hk0 : k = 0 := by simpa [encBytes] using hk
    subst hk0
    exact ⟨0, by simp, by simp, by simp⟩
  | cons c s ih =>
    intro k hs hk htake
    by_cases hk0 : k = 0
    · subst hk0
      exact ⟨0, by simp, by simp, by simp⟩
    by_cases h1 : 0xDC80 ≤ c ∧ c ≤ 0xDCFF
    · have henc : encBytes (c :: s) = (c - 0xDC00) :: encBytes s := by
        show (if 0xDC80 ≤ c ∧ c ≤ 0xDCFF then [c - 0xDC00] else encodeChar c) ++ encBytes s = _
        rw [if_pos h1]
        rfl
      rw [henc] at hk htake ⊢
      simp only [List.length_cons] at hk
      obtain ⟨j, hj1, hj2, hj3⟩ := ih (k - 1)
        (fun x hx => hs x (by simp [hx]))
        (by omega)
        (by
          intro x hx
          apply htake
          rw [show k = (k - 1) + 1 by omega, List.take_succ_cons]
          simp [hx])
      refine ⟨j + 1, by simp only [List.length_cons]; omega, ?_, ?_⟩
      · intro x hx
        rw [List.take_succ_cons] at hx
        rcases List.mem_cons.mp hx with rfl | hmem
        · exact h1
        · exact hj2 x hmem
      · rw [show k = (k - 1) + 1 by omega, List.drop_succ_cons, List.drop_succ_cons]
        exact hj3
    · have hsc : IsScalar c := ((hs c (by simp)).resolve_right h1)
      obtain ⟨b, tail, hbt, hb⟩ := encodeChar_head_not_cont c hsc.1
      have henc : encBytes (c :: s) = b :: (tail ++ encBytes s) := by
        show (if 0xDC80 ≤ c ∧ c ≤ 0xDCFF then [c - 0xDC00] else encodeChar c) ++ encBytes s = _
        rw [if_neg h1, hbt]
        rfl
      exfalso
      have hmem : b ∈ (encBytes (c :: s)).take k := by
        rw [henc, show k = (k - 1) + 1 by omega, List.take_succ_cons]
        simp
      have hbb := htake b hmem
      rcases hb with hb | hb <;> omega

theorem nonSurr_sublist_aux : ∀ (N : Nat) (s : List Nat), s.length ≤ N →
    (∀ c ∈ s, IsScalar c ∨ (0xDC80 ≤ c ∧ c ≤ 0xDCFF)) →
    (nonSurrFilter s).Sublist (decodeReplace (encBytes s)) := by
  intro N
  induction N with
  | zero =>
    intro s hlen _
    have hnil : s = [] := List.eq_nil_of_length_eq_zero (by omega)
    subst hnil
    simp [nonSurrFilter, encBytes, decodeReplace_nil]
  | succ n ih =>
    intro s hlen hs
    match s with
    | [] => simp [nonSurrFilter, encBytes, decodeReplace_nil]
    | c :: s' =>
      simp only [List.length_cons] at hlen
      by_cases h1 : 0xDC80 ≤ c ∧ c ≤ 0xDCFF
      · have henc : encBytes (c :: s') = (c - 0xDC00) :: encBytes s' := by
          show (if 0xDC80 ≤ c ∧ c ≤ 0xDCFF then [c - 0xDC00] else encodeChar c) ++ encBytes s' = _
          rw [if_pos h1]
          rfl
        have hfil : nonSurrFilter (c :: s') = nonSurrFilter s' := by
          unfold nonSurrFilter
          rw [List.filter_cons_of_neg]
          simp only [decide_eq_true_eq]
          omega
        rw [henc, hfil, decodeReplace_cons]
        cases hp : utf8Parse (c - 0xDC00) (encBytes s') with
        | some v =>
          obtain ⟨cp, k⟩ := v
          obtain ⟨-, hk, htake⟩ := utf8Parse_spec _ _ _ _ hp
          obtain ⟨j, hj1, hj2, hj3⟩ := encBytes_contPrefix s' k
            (fun x hx => hs x (by simp [hx])) hk htake
          simp only []
          rw [hj3]
          have hfil2 : nonSurrFilter s' = nonSurrFilter (s'.drop j) := by
            conv_lhs => rw [← List.take_append_drop j s']
            unfold nonSurrFilter
            rw [List.filter_append]
            have hnilf : (s'.take j).filter (fun c => decide (c < 0xD800 ∨ 0xDFFF < c)) = [] := by
              rw [List.filter_eq_nil_iff]
              intro a ha
              have := hj2 a ha
              simp only [decide_eq_true_eq]
              omega
            rw [hnilf, List.nil_append]
          rw [hfil2]
          exact (ih (s'.drop j) (by simp only [List.length_drop]; omega)
            (fun x hx => hs x (by simp [List.drop_subset j s' hx]))).cons cp
        | none =>
          obtain ⟨hk, htake⟩ := failLen_spec (c - 0xDC00) (encBytes s')
          obtain ⟨j, hj1, hj2, hj3⟩ := encBytes_contPrefix s' (failLen (c - 0xDC00) (encBytes s'))
            (fun x hx => hs x (by simp [hx])) hk htake
          simp only []
          rw [hj3]
          have hfil2 : nonSurrFilter s' = nonSurrFilter (s'.drop j) := by
            conv_lhs => rw [← List.take_append_drop j s']
            unfold nonSurrFilter
            rw [List.filter_append]
            have hnilf : (s'.take j).filter (fun c => decide (c < 0xD800 ∨ 0xDFFF < c)) = [] := by
              rw [List.filter_eq_nil_iff]
              intro a ha
              have := hj2 a ha
              simp only [decide_eq_true_eq]
              omega
            rw [hnilf, List.nil_append]
          rw [hfil2]
          exact (ih (s'.drop j) (by simp only [List.length_drop]; omega)
            (fun x hx => hs x (by simp [List.drop_subset j s' hx]))).cons 0xFFFD
      · have hsc : IsScalar c := (hs c (by simp)).resolve_right h1
        have henc : encBytes (c :: s') = encodeChar c ++ encBytes s' := by
          show (if 0xDC80 ≤ c ∧ c ≤ 0xDCFF then [c - 0xDC00] else encodeChar c) ++ encBytes s' = _
          rw [if_neg h1]
        have hfil : nonSurrFilter (c :: s') = c :: nonSurrFilter s' := by
          unfold nonSurrFilter
          rw [List.filter_cons_of_pos]
          simp only [decide_eq_true_eq]
          have h2 := hsc.2
          omega
        rw [henc, hfil, decodeReplace_cons_valid c hsc]
        exact (ih s' (by omega) (fun x hx => hs x (by simp [hx]))).cons₂ c

theorem decodeReplace_encBytes_scalars (s : List Nat) (h : ∀ c ∈ s, IsScalar c) :
    decodeReplace (encBytes s) = s := by
  induction s with
  | nil => simp [encBytes, decodeReplace_nil]
  | cons c s ih =>
    have hsc : IsScalar c := h c (by simp)
    have h1 : ¬ (0xDC80 ≤ c ∧ c ≤ 0xDCFF) := by
      have := hsc.2
      omega
    have henc : encBytes (c :: s) = encodeChar c ++ encBytes s := by
      show (if 0xDC80 ≤ c ∧ c ≤ 0xDCFF then [c - 0xDC00] else encodeChar c) ++ encBytes s = _
      rw [if_neg h1]
    rw [henc, decodeReplace_cons_valid c hsc, ih (fun x hx => h x (by simp [hx]))]

theorem sanitize_string_scalars (s : List Nat) (h : ∀ c ∈ s, IsScalar c) :
    sanitize_string s = some s := by
  unfold sanitize_string
  rw [encodeSE_eq_encBytes s (fun c hc hsurr => absurd hsurr (h c hc).2)]
  simp [decodeReplace_encBytes_scalars s h]

/-! ## Universal-newline lemmas -/

theorem universalNewlines_nil : universalNewlines [] = [] := by
  rw [universalNewlines]

theorem universalNewlines_cons (c : Nat) (rest : List Nat) :
    universalNewlines (c :: rest) =
      if c = 0x0D then
        0x0A :: universalNewlines (if rest.head? = some 0x0A then rest.tail else rest)
      else c :: universalNewlines rest := by
  rw [universalNewlines]

theorem universalNewlines_mem_aux : ∀ (N : Nat) (s : List Nat), s.length ≤ N →
    ∀ c ∈ universalNewlines s, c ∈ s ∨ c = 0x0A := by
  intro N
  induction N with
  | zero =>
    intro s hlen c hc
    have hnil : s = [] := List.eq_nil_of_length_eq_zero (by omega)
    subst hnil
    rw [universalNewlines_nil] at hc
    exact absurd hc (List.not_mem_nil c)
  | succ n ih =>
    intro s hlen c hc
    match s with
    | [] =>
      rw [universalNewlines_nil] at hc
      exact absurd hc (List.not_mem_nil c)
    | b :: rest =>
      simp only [List.length_cons] at hlen
      rw [universalNewlines_cons] at hc
      by_cases hb : b = 0x0D
      · rw [if_pos hb] at hc
        rcases List.mem_cons.mp hc with rfl | hmem
        · exact Or.inr rfl
        · by_cases hh : rest.head? = some 0x0A
          · rw [if_pos hh] at hmem
            rcases ih rest.tail (by simp only [List.length_tail]; omega) c hmem with hin | h10
            · exact Or.inl (List.mem_cons_of_mem b (List.mem_of_mem_tail hin))
            · exact Or.inr h10
          · rw [if_neg hh] at hmem
            rcases ih rest (by omega) c hmem with hin | h10
            · exact Or.inl (List.mem_cons_of_mem b hin)
            · exact Or.inr h10
      · rw [if_neg hb] at hc
        rcases List.mem_cons.mp hc with rfl | hmem
        · exact Or.inl (List.mem_cons_self c rest)
        · rcases ih rest (by omega) c hmem with hin | h10
          · exact Or.inl (List.mem_cons_of_mem b hin)
          · exact Or.inr h10

theorem universalNewlines_mem (s : List Nat) :
    ∀ c ∈ universalNewlines s, c ∈ s ∨ c = 0x0A :=
  universalNewlines_mem_aux s.length s le_rfl

/-! ## Claim theorem: Content Reader and sanitization -/

/-- Claim C8 (amended): for every byte sequence, reading it through the
Content Reader (text-mode decode with universal-newline translation)
and sanitizing the resulting record field succeeds, yields a string
with no unpaired surrogate code points, a second sanitization leaves it
unchanged, and every non-surrogate code point of the newline-translated
decoded content survives unchanged and in order (as a sublist of the
output).  Carriage returns of the input are not preserved: text-mode
reading turns CR and CRLF into LF before sanitization. -/
theorem claim_C8 (bytes : List Nat) (hb : ∀ b ∈ bytes, b < 0x100) :
    ∃ out, read_file_content bytes = some out ∧
      sanitize_string out = some out ∧
      (∀ c ∈ out, ¬ (0xD800 ≤ c ∧ c ≤ 0xDFFF)) ∧
      (nonSurrFilter (universalNewlines (decodeSE bytes))).Sublist out := by
  have hwf0 := decodeSE_mem_wf bytes hb
  have hwf : ∀ c ∈ universalNewlines (decodeSE bytes),
      IsScalar c ∨ (0xDC80 ≤ c ∧ c ≤ 0xDCFF) := by
    intro c hc
    rcases universalNewlines_mem (decodeSE bytes) c hc with hin | rfl
    · exact hwf0 c hin
    · exact Or.inl ⟨by omega, by omega⟩
  have hse : encodeSE (universalNewlines (decodeSE bytes)) =
      some (encBytes (universalNewlines (decodeSE bytes))) :=
    encodeSE_eq_encBytes _ (fun c hc hsurr => by
      rcases hwf c hc with hS | hE
      · exact absurd hsurr hS.2
      · exact hE)
  refine ⟨decodeReplace (encBytes (universalNewlines (decodeSE bytes))), ?_, ?_, ?_, ?_⟩
  · unfold read_file_content sanitize_string
    rw [hse]
    rfl
  · exact sanitize_string_scalars _ (decodeReplace_mem_scalar _)
  · intro c hc
    exact ((decodeReplace_mem_scalar _) c hc).2
  · exact nonSurr_sublist_aux (universalNewlines (decodeSE bytes)).length _ le_rfl hwf

/-- Witness for claim C8 on concrete bytes: valid ASCII, a stray lead
byte, and a valid three-byte sequence. -/
theorem claim_C8_witness :
    ∃ out, read_file_content [0x68, 0xC3, 0x28, 0xE2, 0x82, 0xAC] = some out ∧
      sanitize_string out = some out ∧
      (∀ c ∈ out, ¬ (0xD800 ≤ c ∧ c ≤ 0xDFFF)) ∧
      (nonSurrFilter (universalNewlines
        (decodeSE [0x68, 0xC3, 0x28, 0xE2, 0x82, 0xAC]))).Sublist out :=
  claim_C8 [0x68, 0xC3, 0x28, 0xE2, 0x82, 0xAC] (by decide)

/-- Counterexample to claim C8 as stated: the bytes of `a\r\nb\rc` read
back as `a\nb\nc`, so the non-surrogate code point `0x0D` of the
decoded input is not preserved in the output. -/
theorem claim_C8_cex :
    read_file_content [0x61, 0x0D, 0x0A, 0x62, 0x0D, 0x63] =
      some [0x61, 0x0A, 0x62, 0x0A, 0x63] ∧
    0x0D ∈ decodeSE [0x61, 0x0D, 0x0A, 0x62, 0x0D, 0x63] ∧
    ¬ (0xD800 ≤ 0x0D ∧ 0x0D ≤ 0xDFFF) ∧
    0x0D ∉ [0x61, 0x0A, 0x62, 0x0A, 0x63] := by
  have h1 : decodeSE [0x61, 0x0D, 0x0A, 0x62, 0x0D, 0x63] =
      [0x61, 0x0D, 0x0A, 0x62, 0x0D, 0x63] := by
    simp [decodeSE_cons, decodeSE_nil, utf8Parse]
  have h2 : universalNewlines [0x61, 0x0D, 0x0A, 0x62, 0x0D, 0x63] =
      [0x61, 0x0A, 0x62, 0x0A, 0x63] := by
    simp [universalNewlines_cons, universalNewlines_nil]
  have h3 : sanitize_string [0x61, 0x0A, 0x62, 0x0A, 0x63] =
      some [0x61, 0x0A, 0x62, 0x0A, 0x63] :=
    sanitize_string_scalars _ (by decide)
  refine ⟨?_, ?_, by decide, by decide⟩
  · unfold read_file_content
    rw [h1, h2, h3]
  · rw [h1]
    decide
